import Mathlib

/-!
# Listener acquisition and daemonization handshake of the varnishd manager

A shallow embedding of `bin/varnishd/mgt/mgt_acceptor.c` (the listen-socket
table: `mac_opensocket`, `MAC_reopen_sockets`, `mac_callback`, `MAC_Arg`) and of
the daemonization part of `bin/varnishd/mgt/mgt_main.c` (`mgt_eric`,
`mgt_eric_im_done`, and the order of events in `main`).

Conventions of the embedding:

* the manager's global state (`heritage.socks`, `listen_args`, the static
  counter `seq`) is a record `Mgt` passed explicitly;
* every call that leaves the process is recorded, in order, in `Mgt.trace`;
* the operating system and the collaborators whose code lives in other files
  (`VTCP_bind`, the resolver, the transport registry) are an environment
  `Env`; the outcome of the `n`-th `VTCP_bind` call is `Env.VTCP_bind n addr`;
* a pointer to a `listen_arg` is its position in `listen_args`, and the
  `la->socks` queue holds positions in `heritage.socks` (both queues only grow
  at the tail, so a position identifies an object for its whole life);
* `ARGV_ERR` (diagnostic, then exit) and failed assertions end the run and are
  results of their own in `Res`.
-/

namespace Varnish

/-! ## Data model -/

/-- Modelled from the spec: `struct suckaddr` and its accessors live in `vsa.c`,
which is outside the two embedded files.  The spec calls it an opaque socket
address, comparable for equality; here it is a family, a host and a port. -/
structure suckaddr where
  family : Nat
  host : Nat
  port : Nat
deriving DecidableEq, Repr

/-- Modelled from the spec: `VSA_Compare` is a bytewise comparison of two
addresses, zero exactly when they are equal. -/
def VSA_Compare (a b : suckaddr) : Int :=
  if a = b then 0 else 1

/-- Modelled from the spec: `VSA_Port` reads the port of an address. -/
def VSA_Port (a : suckaddr) : Nat :=
  a.port

/-- A transport descriptor of the registry (`struct transport`), known here
only by its name. -/
structure transport where
  name : String
deriving DecidableEq, Repr

/-- The `struct listen_sock` fields written by the acceptor code. -/
structure listen_sock where
  sock : Int
  addr : suckaddr
  endpoint : String
  name : String
  transport : Option transport
deriving DecidableEq, Repr

/-- The `struct listen_arg` fields written by the acceptor code; `socks` holds
the positions in `heritage.socks` of the sockets this argument produced. -/
structure listen_arg where
  endpoint : String
  name : String
  transport : Option transport
  socks : List Nat
deriving DecidableEq, Repr

/-- The modes passed to `VJ_master`. -/
inductive JailMode where
  | JAIL_MASTER_LOW
  | JAIL_MASTER_FILE
  | JAIL_MASTER_PRIVPORT
deriving DecidableEq, Repr

/-- The externally visible calls made by the embedded code, in the order made. -/
inductive Event where
  | VJ_master (mode : JailMode)
  | MCH_Fd_Inherit (fd : Int) (what : Option String)
  | closefd (fd : Int)
  | VTCP_bind (addr : suckaddr)
  | MGT_Complain (endpoint : String) (err : Int)
  | fork
  | devnull (target : Int)
  | write (fd : Int) (word : Nat)
deriving DecidableEq, Repr

/-- What one `VTCP_bind` call gives back: the returned descriptor (negative on
failure) and `errno` after the call. -/
structure BindOutcome where
  sock : Int
  errno : Int
deriving DecidableEq, Repr

/-- The collaborators of the acceptor code.  `VTCP_bind n addr` is the outcome
of the `n`-th bind call of the run when it is made on `addr`;
`VTCP_my_suckaddr n fd` and `VTCP_myname n fd` are what the system reports as
the local address of descriptor `fd`, and as its printed host and port, once
`n` binds have been made; `getaddrinfo` is the name resolution behind
`VSS_resolver` (`none` for a resolution error); `XPORT_Find` is the transport
registry; `EAFNOSUPPORT` is the platform's value of that errno constant. -/
structure Env where
  VTCP_bind : Nat → suckaddr → BindOutcome
  VTCP_my_suckaddr : Nat → Int → suckaddr
  VTCP_myname : Nat → Int → String × String
  getaddrinfo : String → String → Option (List suckaddr)
  XPORT_Find : String → Option transport
  EAFNOSUPPORT : Int

/-- The manager state touched by the acceptor code. -/
structure Mgt where
  socks : List listen_sock
  listen_args : List listen_arg
  seq : Nat
  nbind : Nat
  trace : List Event
deriving DecidableEq, Repr

/-- The state of a freshly started manager: `VTAILQ_INIT` on both queues,
`seq = 0`, nothing done yet. -/
def Mgt.init : Mgt :=
  { socks := [], listen_args := [], seq := 0, nbind := 0, trace := [] }

/-- Record calls at the end of the trace. -/
def Mgt.log (s : Mgt) (es : List Event) : Mgt :=
  { s with trace := s.trace ++ es }

/-- The `ARGV_ERR` diagnostics of the embedded code. -/
inductive ArgvErr where
  | same_address (existing : String) (added : String)
  | could_not_get_socket (endpoint : String) (err : Int)
  | unknown_protocol (proto : String)
  | too_many_subargs (proto : String)
  | got_no_sockets (endpoint : String)
deriving DecidableEq, Repr

/-- How a piece of the manager's code ends: it returns `v` in state `s`; or it
reaches `ARGV_ERR` in state `s` (diagnostic, then the process exits); or an
assertion (`AN`, `assert`, `CAST_OBJ_NOTNULL`, `bprintf`) fails and the
process aborts. -/
inductive Res (α : Type) where
  | ok (v : α) (s : Mgt)
  | argv_err (e : ArgvErr) (s : Mgt)
  | assert_fail
deriving DecidableEq, Repr

/-! ## `mgt_acceptor.c` -/

/-- `mac_opensocket`: release the descriptor held by `ls` if there is one, bind
`ls->addr`, store the result in `ls->sock`; return `errno` on failure (after
asserting it is nonzero) and 0 on success, after recording the new descriptor
for inheritance. -/
def mac_opensocket (env : Env) (ls : listen_sock) (s : Mgt) : Res (Int × listen_sock) :=
  let s1 := if ls.sock > 0 then
      s.log [Event.MCH_Fd_Inherit ls.sock none, Event.closefd ls.sock]
    else s
  let o := env.VTCP_bind s1.nbind ls.addr
  let s2 := { s1 with nbind := s1.nbind + 1, trace := s1.trace ++ [Event.VTCP_bind ls.addr] }
  let ls2 := { ls with sock := o.sock }
  let fail := o.errno
  if o.sock < 0 then
    if fail = 0 then Res.assert_fail
    else Res.ok (fail, ls2) s2
  else
    Res.ok (0, ls2) (s2.log [Event.MCH_Fd_Inherit o.sock (some "sock")])

/-- The `VTAILQ_FOREACH` loop of `MAC_reopen_sockets` over the entries still to
visit, with the running value of `fail`; it returns the final `fail` and the
visited entries as the loop left them. -/
def reopen_loop (env : Env) : List listen_sock → Int → Mgt → Res (Int × List listen_sock)
  | [], fail, s => Res.ok (fail, []) s
  | ls :: rest, fail, s =>
    match mac_opensocket env ls (s.log [Event.VJ_master JailMode.JAIL_MASTER_PRIVPORT]) with
    | Res.ok (err, ls2) s2 =>
      let s3 := s2.log [Event.VJ_master JailMode.JAIL_MASTER_LOW]
      let next : Int × Mgt :=
        if err = 0 then (fail, s3)
        else ((if err > fail then err else fail),
              s3.log [Event.MGT_Complain ls2.endpoint err])
      match reopen_loop env rest next.1 next.2 with
      | Res.ok (r, done) s4 => Res.ok (r, ls2 :: done) s4
      | Res.argv_err e s4 => Res.argv_err e s4
      | Res.assert_fail => Res.assert_fail
    | Res.argv_err e s2 => Res.argv_err e s2
    | Res.assert_fail => Res.assert_fail

/-- `MAC_reopen_sockets`: run the loop over `heritage.socks` from `fail = 0`. -/
def MAC_reopen_sockets (env : Env) (s : Mgt) : Res Int :=
  match reopen_loop env s.socks 0 s with
  | Res.ok (r, socks2) s2 => Res.ok r { s2 with socks := socks2 }
  | Res.argv_err e s2 => Res.argv_err e s2
  | Res.assert_fail => Res.assert_fail

/-- `mac_callback`, called by the resolver with `priv` pointing at the
`listen_arg` and one resolved address `sa`. -/
def mac_callback (env : Env) (priv : Nat) (sa : suckaddr) (s : Mgt) : Res Int :=
  match s.listen_args[priv]? with
  | none => Res.assert_fail
  | some la =>
    match s.socks.find? (fun ls => VSA_Compare sa ls.addr = 0) with
    | some old => Res.argv_err (ArgvErr.same_address old.endpoint la.endpoint) s
    | none =>
      let ls : listen_sock :=
        { sock := -1, addr := sa, endpoint := la.endpoint, name := la.name,
          transport := la.transport }
      match mac_opensocket env ls (s.log [Event.VJ_master JailMode.JAIL_MASTER_PRIVPORT]) with
      | Res.ok (fail, ls2) s2 =>
        let s3 := s2.log [Event.VJ_master JailMode.JAIL_MASTER_LOW]
        if fail ≠ 0 then
          if fail ≠ env.EAFNOSUPPORT then
            Res.argv_err (ArgvErr.could_not_get_socket la.endpoint fail) s3
          else Res.ok 0 s3
        else
          let ls3 : listen_sock :=
            if VSA_Port ls2.addr = 0 then
              let nm := env.VTCP_myname s3.nbind ls2.sock
              { ls2 with addr := env.VTCP_my_suckaddr s3.nbind ls2.sock,
                         endpoint := nm.1 ++ ":" ++ nm.2 }
            else ls2
          Res.ok 0 { s3 with
            listen_args := s3.listen_args.set priv
              { la with socks := la.socks ++ [s3.socks.length] },
            socks := s3.socks ++ [ls3] }
      | Res.argv_err e s2 => Res.argv_err e s2
      | Res.assert_fail => Res.assert_fail

/-- The loop of the resolver over the resolved addresses: call `func` on each,
stop at the first nonzero return, give back the last return value. -/
def resolver_loop (func : suckaddr → Mgt → Res Int) : List suckaddr → Int → Mgt → Res Int
  | [], ret, s => Res.ok ret s
  | va :: rest, _, s =>
    match func va s with
    | Res.ok ret s1 => if ret ≠ 0 then Res.ok ret s1 else resolver_loop func rest ret s1
    | Res.argv_err e s1 => Res.argv_err e s1
    | Res.assert_fail => Res.assert_fail

/-- Modelled from the spec: `VSS_resolver` lives in `vss.c`, outside the two
embedded files.  It resolves the endpoint into a sequence of candidate
addresses or an error; on an error it returns nonzero without calling back,
otherwise it calls back once per address, in order. -/
def VSS_resolver (env : Env) (addr def_port : String)
    (func : suckaddr → Mgt → Res Int) (s : Mgt) : Res Int :=
  match env.getaddrinfo addr def_port with
  | none => Res.ok (-1) s
  | some res => resolver_loop func res 0 s

/-- What `MGT_NamedArg` hands to `MAC_Arg`: the optional `name=` part and the
comma-separated fields `av[1]`, `av[2]`, ... of the rest. -/
structure NamedArg where
  name : Option String
  endpoint : String
  subargs : List String
deriving DecidableEq, Repr

/-- The label of `MAC_Arg`: the operator's name, or `a<seq>` printed into the
8-byte `name_buf` (an assertion of `bprintf` fails when it does not fit), with
`seq` advanced as a 32-bit unsigned. -/
def MAC_Arg_name (name : Option String) (seq : Nat) : Option (String × Nat) :=
  match name with
  | some n => some (n, seq)
  | none =>
    let name_buf := "a" ++ toString seq
    if name_buf.length < 8 then some (name_buf, (seq + 1) % 2 ^ 32) else none

/-- The first part of `MAC_Arg` on an already split argument, up to
`la->transport = xp`: allocate the `listen_arg`, queue it on `listen_args`,
give it its endpoint, label and transport.  It returns the pointer `la`. -/
def MAC_Arg_setup (env : Env) (arg : NamedArg) (s : Mgt) : Res Nat :=
  let priv := s.listen_args.length
  match MAC_Arg_name arg.name s.seq with
  | none => Res.assert_fail
  | some (name, seq2) =>
    let la : listen_arg :=
      { endpoint := arg.endpoint, name := name, transport := none, socks := [] }
    let s1 : Mgt := { s with listen_args := s.listen_args ++ [la], seq := seq2 }
    match arg.subargs[0]? with
    | none =>
      match env.XPORT_Find "http" with
      | none => Res.assert_fail
      | some xp =>
        Res.ok priv { s1 with listen_args := s1.listen_args.set priv { la with transport := some xp } }
    | some av2 =>
      match env.XPORT_Find av2 with
      | none => Res.argv_err (ArgvErr.unknown_protocol av2) s1
      | some xp =>
        if (arg.subargs[1]?).isSome then Res.argv_err (ArgvErr.too_many_subargs av2) s1
        else
          Res.ok priv { s1 with listen_args := s1.listen_args.set priv { la with transport := some xp } }

/-- `MAC_Arg` on an already split argument: set up the `listen_arg`, run the
resolver with `mac_callback` on it, and fail unless the argument got at least
one socket and the resolver reported no error. -/
def MAC_Arg (env : Env) (arg : NamedArg) (s : Mgt) : Res Unit :=
  match MAC_Arg_setup env arg s with
  | Res.argv_err e s2 => Res.argv_err e s2
  | Res.assert_fail => Res.assert_fail
  | Res.ok priv s2 =>
    match VSS_resolver env arg.endpoint "80" (mac_callback env priv) s2 with
    | Res.ok error s3 =>
      match s3.listen_args[priv]? with
      | none => Res.assert_fail
      | some la3 =>
        if la3.socks.isEmpty || error ≠ 0 then
          Res.argv_err (ArgvErr.got_no_sockets arg.endpoint) s3
        else Res.ok () s3
    | Res.argv_err e s3 => Res.argv_err e s3
    | Res.assert_fail => Res.assert_fail

/-- A sequence of `MAC_Arg` calls, one per `-a` argument, in order; it stops at
the first call that does not return. -/
def MAC_Args (env : Env) : List NamedArg → Mgt → Res Unit
  | [], s => Res.ok () s
  | arg :: rest, s =>
    match MAC_Arg env arg s with
    | Res.ok _ s1 => MAC_Args env rest s1
    | Res.argv_err e s1 => Res.argv_err e s1
    | Res.assert_fail => Res.assert_fail

/-! ## `mgt_main.c`: the daemonization handshake -/

/-- The success sentinel `ERIC_MAGIC`. -/
def ERIC_MAGIC : Nat := 0x2246988a

/-- The conversion of a 32-bit `unsigned` to `int` made when `u` is passed to
`exit`: two's complement. -/
def int_of_unsigned (u : Nat) : Int :=
  if u % 2 ^ 32 < 2 ^ 31 then ((u % 2 ^ 32 : Nat) : Int) else ((u % 2 ^ 32 : Nat) : Int) - 2 ^ 32

/-- The three ways `fork()` comes back in `mgt_eric`. -/
inductive ForkSide where
  | failed
  | child
  | parent
deriving DecidableEq, Repr

/-- How a function of `mgt_main.c` ends in one process: it returns a value, or
it calls `exit` with a status. -/
inductive Proc (α : Type) where
  | ret (v : α)
  | exit (status : Int)
deriving DecidableEq, Repr

/-- `mgt_eric` in one process.  `eric_pipes` are the two descriptors of the
pipe; `rd` is what the parent's `read` gives: its return value and the word
`u` it stored.  After a failed fork the process exits with -1; the child (its
`setsid`, `open` and `dup2` assertions taken to hold) returns the write end;
the parent exits according to what it read. -/
def mgt_eric (side : ForkSide) (eric_pipes : Int × Int) (rd : Int × Nat) : Proc Int :=
  match side with
  | ForkSide.failed => Proc.exit (-1)
  | ForkSide.child => Proc.ret eric_pipes.2
  | ForkSide.parent =>
    if rd.1 = 4 ∧ rd.2 = ERIC_MAGIC then Proc.exit 0
    else if rd.1 = 4 ∧ rd.2 ≠ 0 then Proc.exit (int_of_unsigned rd.2)
    else Proc.exit (-1)

/-- `mgt_eric_im_done`: nothing for a negative `eric_fd`; otherwise replace a
zero status by `ERIC_MAGIC`, point the three standard descriptors at the null
device, write the word to `eric_fd` and close it (the assertions on `open`,
`dup2` and `write` taken to hold).  The value is the list of calls made. -/
def mgt_eric_im_done (eric_fd : Int) (u : Nat) : List Event :=
  if eric_fd < 0 then []
  else
    let u2 := if u = 0 then ERIC_MAGIC else u
    [Event.devnull 0, Event.devnull 1, Event.devnull 2, Event.write eric_fd u2,
      Event.closefd eric_fd]

/-- The word written to the handshake pipe in a list of calls, if any. -/
def written : List Event → Option Nat
  | [] => none
  | Event.write _ w :: _ => some w
  | _ :: rest => written rest

/-- What the parent's `read` on the pipe gives once the other side has written
the 4 bytes of a word, or has closed its end or died without writing: the
4 bytes, or end of file. -/
def pipe_read (sent : Option Nat) : Int × Nat :=
  match sent with
  | some w => (4, w)
  | none => (0, 0)

/-! ## `mgt_main.c`: the order of events in `main` -/

/-- The error code of one bind attempt as `mac_opensocket` returns it: `errno`
when the descriptor is negative, 0 otherwise. -/
def bind_err (o : BindOutcome) : Int :=
  if o.sock < 0 then o.errno else 0

/-- The outcomes of the bind attempts of one pass over the table `t` when `n`
binds were made before it: entry `i` is bound by call number `n + i`. -/
def reopen_outcomes (env : Env) : Nat → List listen_sock → List BindOutcome
  | _, [] => []
  | n, ls :: rest => env.VTCP_bind n ls.addr :: reopen_outcomes env (n + 1) rest

/-- The address of a bind call, for the other calls nothing. -/
def Event.bound : Event → Option suckaddr
  | Event.VTCP_bind a => some a
  | _ => none

/-- The addresses bound in a trace, in order. -/
def binds (tr : List Event) : List suckaddr :=
  tr.filterMap Event.bound

/-- The descriptors recorded for inheritance under the tag `sock` in a trace. -/
def Event.inherited : Event → Option Int
  | Event.MCH_Fd_Inherit fd (some _) => some fd
  | _ => none

/-- The descriptors recorded for inheritance in a trace, in order. -/
def inherits (tr : List Event) : List Int :=
  tr.filterMap Event.inherited

/-- The table entry `mac_callback` appends for the candidate `sa` of the
argument `la` when its bind, call number `n`, succeeds: the candidate address
and the argument's endpoint, or, for a candidate with port 0, the address and
the printed name the system reports for the new socket. -/
def bound_entry (env : Env) (la : listen_arg) (sa : suckaddr) (n : Nat) : listen_sock :=
  let fd := (env.VTCP_bind n sa).sock
  if VSA_Port sa = 0 then
    { sock := fd, addr := env.VTCP_my_suckaddr (n + 1) fd,
      endpoint := (env.VTCP_myname (n + 1) fd).1 ++ ":" ++ (env.VTCP_myname (n + 1) fd).2,
      name := la.name, transport := la.transport }
  else
    { sock := fd, addr := sa, endpoint := la.endpoint, name := la.name,
      transport := la.transport }

/-- The state `mac_callback` leaves when the bind of the candidate `sa` failed:
one more bind call, made inside the jail bracket; the table and the arguments
are untouched. -/
def callback_failed (s : Mgt) (sa : suckaddr) : Mgt :=
  { s with
    nbind := s.nbind + 1,
    trace := s.trace ++ [Event.VJ_master JailMode.JAIL_MASTER_PRIVPORT, Event.VTCP_bind sa,
      Event.VJ_master JailMode.JAIL_MASTER_LOW] }

/-- The state `mac_callback` leaves when the bind of the candidate `sa` of the
argument `la`, stored at `priv`, succeeded: the new entry is at the tail of the
table and its position at the tail of the argument's queue. -/
def callback_bound (env : Env) (priv : Nat) (la : listen_arg) (sa : suckaddr) (s : Mgt) : Mgt :=
  { socks := s.socks ++ [bound_entry env la sa s.nbind],
    listen_args := s.listen_args.set priv { la with socks := la.socks ++ [s.socks.length] },
    seq := s.seq,
    nbind := s.nbind + 1,
    trace := s.trace ++ [Event.VJ_master JailMode.JAIL_MASTER_PRIVPORT, Event.VTCP_bind sa,
      Event.MCH_Fd_Inherit (env.VTCP_bind s.nbind sa).sock (some "sock"),
      Event.VJ_master JailMode.JAIL_MASTER_LOW] }

/-- Whether the address `mac_callback` would adopt for the candidate `sa` in
state `s` is new to the table: true when the candidate's port is not 0 or its
bind fails (nothing is adopted), and otherwise when the local address the
system reports for the new socket differs from the address of every entry. -/
def adopts_fresh (env : Env) (sa : suckaddr) (s : Mgt) : Bool :=
  decide (VSA_Port sa ≠ 0) || decide ((env.VTCP_bind s.nbind sa).sock < 0)
    || s.socks.all (fun ls =>
        decide (VSA_Compare (env.VTCP_my_suckaddr (s.nbind + 1) (env.VTCP_bind s.nbind sa).sock)
          ls.addr ≠ 0))

/-- Whether every adoption is new to the table along the callbacks the
resolver makes for the candidates, from state `s` on. -/
def callbacks_fresh (env : Env) (priv : Nat) : List suckaddr → Mgt → Bool
  | [], _ => true
  | sa :: rest, s =>
    adopts_fresh env sa s &&
      match mac_callback env priv sa s with
      | Res.ok ret s1 => if ret ≠ 0 then true else callbacks_fresh env priv rest s1
      | _ => true

/-- Whether every adoption is new to the table during one `MAC_Arg` call. -/
def MAC_Arg_fresh (env : Env) (arg : NamedArg) (s : Mgt) : Bool :=
  match MAC_Arg_setup env arg s, env.getaddrinfo arg.endpoint "80" with
  | Res.ok priv s2, some res => callbacks_fresh env priv res s2
  | _, _ => true

/-- Whether every adoption is new to the table during a sequence of `MAC_Arg`
calls. -/
def MAC_Args_fresh (env : Env) : List NamedArg → Mgt → Bool
  | [], _ => true
  | arg :: rest, s =>
    MAC_Arg_fresh env arg s &&
      match MAC_Arg env arg s with
      | Res.ok _ s1 => MAC_Args_fresh env rest s1
      | _ => true

/-- A property of the state in which a piece of code ends, by return or by
`ARGV_ERR`; nothing is asked after a failed assertion. -/
def Res.holds {α : Type} (P : Mgt → Prop) : Res α → Prop
  | Res.ok _ s => P s
  | Res.argv_err _ s => P s
  | Res.assert_fail => True

/-- The state `s2` comes after `s`: the trace has only grown and the number of
binds has not decreased. -/
def Mgt.after (s s2 : Mgt) : Prop :=
  s.trace <+: s2.trace ∧ s.nbind ≤ s2.nbind

/-- The operations on the listen table: one callback of the resolver, one
`MAC_Arg` call, one `MAC_reopen_sockets` call. -/
inductive Op where
  | callback (priv : Nat) (sa : suckaddr)
  | arg (a : NamedArg)
  | reopen
deriving DecidableEq, Repr

/-- Run one operation, forgetting its value. -/
def Op.run (env : Env) (op : Op) (s : Mgt) : Res Unit :=
  match op with
  | Op.callback priv sa =>
    match mac_callback env priv sa s with
    | Res.ok _ s1 => Res.ok () s1
    | Res.argv_err e s1 => Res.argv_err e s1
    | Res.assert_fail => Res.assert_fail
  | Op.arg a => MAC_Arg env a s
  | Op.reopen =>
    match MAC_reopen_sockets env s with
    | Res.ok _ s1 => Res.ok () s1
    | Res.argv_err e s1 => Res.argv_err e s1
    | Res.assert_fail => Res.assert_fail

/-- Run operations in order, up to the first that does not return. -/
def run_ops (env : Env) : List Op → Mgt → Res Unit
  | [], s => Res.ok () s
  | op :: rest, s =>
    match op.run env s with
    | Res.ok _ s1 => run_ops env rest s1
    | Res.argv_err e s1 => Res.argv_err e s1
    | Res.assert_fail => Res.assert_fail

/-- The address and the endpoint display of every entry of the table of `s`
are those of the entry at the same position in the table of `s2`. -/
def Mgt.keeps (s s2 : Mgt) : Prop :=
  s.socks.map (fun ls => (ls.addr, ls.endpoint)) <+: s2.socks.map (fun ls => (ls.addr, ls.endpoint))

/-- The value of `fail` after the loop of `MAC_reopen_sockets` has seen the
error codes `errs`, from the value `fail` on. -/
def reopen_fail : Int → List Int → Int
  | fail, [] => fail
  | fail, err :: rest =>
    reopen_fail (if err = 0 then fail else if err > fail then err else fail) rest

/-- The table as one pass of `MAC_reopen_sockets` leaves it, given the outcomes
of its bind attempts: every entry keeps its fields but `sock`, which becomes
the value its bind returned. -/
def reopen_socks : List listen_sock → List BindOutcome → List listen_sock
  | ls :: rest, o :: os => { ls with sock := o.sock } :: reopen_socks rest os
  | _, _ => []

/-- The entries one `MAC_Arg` call appends for the candidates `res` of the
argument `la` when `n` binds were made before: candidate `i` is bound by call
number `n + i`, and every successful bind gives one entry, in the order of the
candidates. -/
def bound_candidates (env : Env) (la : listen_arg) : Nat → List suckaddr → List listen_sock
  | _, [] => []
  | n, sa :: rest =>
    if (env.VTCP_bind n sa).sock < 0 then bound_candidates env la (n + 1) rest
    else bound_entry env la sa n :: bound_candidates env la (n + 1) rest

/-- Where a trace stands with respect to the jail bracket of a bind: outside
any bracket, inside a bracket before its bind, inside a bracket after its
bind. -/
inductive Phase where
  | low
  | entered
  | bound
deriving DecidableEq, Repr

/-- One call of a trace read against the bracket discipline.  Outside a
bracket `VJ_master(JAIL_MASTER_PRIVPORT)` opens one, and no bind and no other
jail call may occur.  Inside, before the bind, only the release of the old
descriptor (`MCH_Fd_Inherit(fd, NULL)`, `closefd`) may come before the bind.
After the bind only the recording of the new descriptor may come before
`VJ_master(JAIL_MASTER_LOW)`, which closes the bracket. -/
def bracket_step : Phase → Event → Option Phase
  | Phase.low, Event.VJ_master JailMode.JAIL_MASTER_PRIVPORT => some Phase.entered
  | Phase.low, Event.VJ_master _ => none
  | Phase.low, Event.VTCP_bind _ => none
  | Phase.low, _ => some Phase.low
  | Phase.entered, Event.VTCP_bind _ => some Phase.bound
  | Phase.entered, Event.MCH_Fd_Inherit _ none => some Phase.entered
  | Phase.entered, Event.closefd _ => some Phase.entered
  | Phase.entered, _ => none
  | Phase.bound, Event.VJ_master JailMode.JAIL_MASTER_LOW => some Phase.low
  | Phase.bound, Event.MCH_Fd_Inherit _ (some _) => some Phase.bound
  | Phase.bound, _ => none

/-- Read a trace against the bracket discipline from the phase `p` on: the
phase at its end, or nothing if a call breaks the discipline. -/
def bracket_scan : Phase → List Event → Option Phase
  | p, [] => some p
  | p, e :: rest =>
    match bracket_step p e with
    | some q => bracket_scan q rest
    | none => none

/-- The jail mode after the calls of a trace, when it was `m` before them: the
mode of the last `VJ_master` call, if there is one. -/
def jail_mode : JailMode → List Event → JailMode
  | m, [] => m
  | _, Event.VJ_master m2 :: rest => jail_mode m2 rest
  | m, _ :: rest => jail_mode m rest

/-- The jail mode in a phase of the bracket. -/
def Phase.mode : Phase → JailMode
  | Phase.low => JailMode.JAIL_MASTER_LOW
  | Phase.entered => JailMode.JAIL_MASTER_PRIVPORT
  | Phase.bound => JailMode.JAIL_MASTER_PRIVPORT

/-- The value of a decimal digit character. -/
def digit_value (c : Char) : Nat :=
  c.toNat - 48

/-- The number a list of decimal digit characters denotes, most significant
digit first. -/
def decimal_value (cs : List Char) : Nat :=
  cs.foldl (fun a c => 10 * a + digit_value c) 0

/-- The labels a sequence of `MAC_Arg` calls gives its arguments when the
counter `seq` stands at `seq` before it: the operator's name where there is
one, and otherwise `a<seq>`, counting the unnamed arguments in order. -/
def labels_from : Nat → List NamedArg → List String
  | _, [] => []
  | seq, arg :: rest =>
    match arg.name with
    | some n => n :: labels_from seq rest
    | none => ("a" ++ toString seq) :: labels_from (seq + 1) rest

/-- The names the operator gave, in order. -/
def given_names (args : List NamedArg) : List String :=
  args.filterMap (fun a => a.name)

/-- The number of arguments the operator left unnamed. -/
def unnamed_count (args : List NamedArg) : Nat :=
  (args.filter (fun a => a.name.isNone)).length

/-- The labels of a state: the `name` fields of `listen_args`, in order. -/
def Mgt.labels (s : Mgt) : List String :=
  s.listen_args.map (fun la => la.name)

/-- The status with which a process that called `exit(arg)` is seen to exit:
the system hands whoever waits for the process only the low 8 bits of the
argument (`arg & 0377`), so `exit(-1)` is seen as 255 and `exit(256)` as 0. -/
def wait_status (arg : Int) : Int :=
  arg % 256

/-- The status with which a process that left a function by `exit` is seen to
exit; nothing for a function that returned. -/
def Proc.status : Proc Int → Option Int
  | Proc.exit arg => some (wait_status arg)
  | Proc.ret _ => none

/-- Whether the callbacks for the candidates `res` of one argument end before
any bind succeeds, when `n` binds were made before and the table is `table`:
the first candidate equals an entry of the table (the callback ends in
`ARGV_ERR` before binding), or its bind fails with its errno and, if that is
`EAFNOSUPPORT` so that the candidate is dropped, the same holds of the
candidates after it.  Candidates after the first fatal one are not looked
at. -/
def none_bound (env : Env) (table : List listen_sock) : Nat → List suckaddr → Bool
  | _, [] => true
  | n, sa :: rest =>
    table.any (fun ls => decide (VSA_Compare sa ls.addr = 0))
      || (decide ((env.VTCP_bind n sa).sock < 0) && decide ((env.VTCP_bind n sa).errno ≠ 0)
          && (decide ((env.VTCP_bind n sa).errno ≠ env.EAFNOSUPPORT)
              || none_bound env table (n + 1) rest))

/-- The `ARGV_ERR` in which `MAC_Arg` ends for an argument with the endpoint
text `endpoint` none of whose candidates `res` is bound: the error of the first
candidate that equals an entry of the table or whose bind fails with another
errno than `EAFNOSUPPORT`, and "Got no socket(s)" when every candidate is
dropped or there is none. -/
def no_socket_error (env : Env) (endpoint : String) (table : List listen_sock) :
    Nat → List suckaddr → ArgvErr
  | _, [] => ArgvErr.got_no_sockets endpoint
  | n, sa :: rest =>
    match table.find? (fun ls => VSA_Compare sa ls.addr = 0) with
    | some old => ArgvErr.same_address old.endpoint endpoint
    | none =>
      if (env.VTCP_bind n sa).errno ≠ env.EAFNOSUPPORT then
        ArgvErr.could_not_get_socket endpoint (env.VTCP_bind n sa).errno
      else no_socket_error env endpoint table (n + 1) rest

/-- The `ARGV_ERR` in which `MAC_Arg` ends after its set-up for an argument none
of whose candidates is bound. -/
def MAC_Arg_no_socket_error (env : Env) (arg : NamedArg) (s : Mgt) : ArgvErr :=
  match env.getaddrinfo arg.endpoint "80" with
  | none => ArgvErr.got_no_sockets arg.endpoint
  | some res => no_socket_error env arg.endpoint s.socks s.nbind res

/-! ## Sample inputs -/

/-- A sample environment: the bind of port 80 fails with errno 13, the bind of
port 443 fails with errno 98, every other bind succeeds and returns descriptor
`5 + n` for call number `n`; a socket bound from a port-0 address is reported
on port `40000 + fd`; `":0"` resolves to host 0 and port 0, `":80"` to host 0
and port 80, `"nowhere"` to no address at all, and every other name to host 0
and port 8080; the registry knows `http` and `proxy`. -/
def sampleEnv : Env :=
  { VTCP_bind := fun n a =>
      if a.port = 80 then { sock := -1, errno := 13 }
      else if a.port = 443 then { sock := -1, errno := 98 }
      else { sock := 5 + (n : Int), errno := 0 },
    VTCP_my_suckaddr := fun _ fd => { family := 2, host := 0, port := 40000 + fd.toNat },
    VTCP_myname := fun _ fd => ("0.0.0.0", toString (40000 + fd.toNat)),
    getaddrinfo := fun addr _ =>
      if addr = ":0" then some [{ family := 2, host := 0, port := 0 }]
      else if addr = ":80" then some [{ family := 2, host := 0, port := 80 }]
      else if addr = "nowhere" then some []
      else some [{ family := 2, host := 0, port := 8080 }],
    XPORT_Find := fun nm =>
      if nm = "http" then some { name := "http" }
      else if nm = "proxy" then some { name := "proxy" } else none,
    EAFNOSUPPORT := 97 }

/-- The sample environment with a system that reports the same local address,
port 40000, for every socket. -/
def collideEnv : Env :=
  { sampleEnv with
    VTCP_my_suckaddr := fun _ _ => { family := 2, host := 0, port := 40000 },
    VTCP_myname := fun _ _ => ("0.0.0.0", "40000") }

/-- The argument `-a :0`. -/
def anyPort : NamedArg :=
  { name := none, endpoint := ":0", subargs := [] }

/-- The argument `-a :8080`. -/
def port8080 : NamedArg :=
  { name := none, endpoint := ":8080", subargs := [] }

/-- A sample table entry on host 0 with the given port and descriptor. -/
def sampleSock (port : Nat) (fd : Int) : listen_sock :=
  { sock := fd, addr := { family := 2, host := 0, port := port },
    endpoint := ":" ++ toString port, name := "a0", transport := some { name := "http" } }

/-- A sample state whose table holds entries for the ports 8080, 80, 443. -/
def sampleTable : Mgt :=
  { socks := [sampleSock 8080 4, sampleSock 80 (-1), sampleSock 443 6],
    listen_args := [], seq := 1, nbind := 3, trace := [] }

/-- A sample state in the middle of a `MAC_Arg` call: the table holds an entry
for port 8080 made by an earlier argument, and the argument at position 1 is
being resolved. -/
def sampleResolving : Mgt :=
  { socks := [sampleSock 8080 4],
    listen_args :=
      [{ endpoint := ":8080", name := "a0", transport := some { name := "http" }, socks := [0] },
       { endpoint := "localhost:8080", name := "a1", transport := some { name := "http" },
         socks := [] }],
    seq := 2, nbind := 1, trace := [] }

/-- A sample state in the middle of the `MAC_Arg` call of `-a :0` on an empty
table: the argument stands at position 0 and is being resolved. -/
def sampleAnyPort : Mgt :=
  { socks := [],
    listen_args :=
      [{ endpoint := ":0", name := "a0", transport := some { name := "http" }, socks := [] }],
    seq := 1, nbind := 0, trace := [] }

/-- The sample environment on a host without the address family 10: the bind
of an address of that family fails with errno 97, the value of `EAFNOSUPPORT`
there, and `"localhost:8080"` resolves to an address of family 10 followed by
one of family 2, both with port 8080; `"localhost:0"` resolves to the same two
hosts with port 0. -/
def dualStackEnv : Env :=
  { sampleEnv with
    VTCP_bind := fun n a =>
      if a.family = 10 then { sock := -1, errno := 97 } else sampleEnv.VTCP_bind n a,
    getaddrinfo := fun addr def_port =>
      if addr = "localhost:8080" then
        some [{ family := 10, host := 1, port := 8080 }, { family := 2, host := 1, port := 8080 }]
      else if addr = "localhost:0" then
        some [{ family := 10, host := 1, port := 0 }, { family := 2, host := 1, port := 0 }]
      else sampleEnv.getaddrinfo addr def_port }

/-- The argument `-a localhost:8080`. -/
def localhost8080 : NamedArg :=
  { name := none, endpoint := "localhost:8080", subargs := [] }

/-- A sample state later in the `MAC_Arg` call of `sampleResolving`: the
argument at position 1 has already got one socket, on host 1 and port 8080. -/
def sampleHalfResolved : Mgt :=
  { socks := [sampleSock 8080 4,
      { sock := 6, addr := { family := 2, host := 1, port := 8080 },
        endpoint := "localhost:8080", name := "a1", transport := some { name := "http" } }],
    listen_args :=
      [{ endpoint := ":8080", name := "a0", transport := some { name := "http" }, socks := [0] },
       { endpoint := "localhost:8080", name := "a1", transport := some { name := "http" },
         socks := [1] }],
    seq := 2, nbind := 2, trace := [] }

/-- The argument `-a a0=:8080`: an operator's name that looks like an
auto-generated one. -/
def namedLikeAuto : NamedArg :=
  { name := some "a0", endpoint := ":8080", subargs := [] }

/-- The argument `-a web=:8080`. -/
def webPort8080 : NamedArg :=
  { name := some "web", endpoint := ":8080", subargs := [] }

/-- The argument `-a web=:0`. -/
def webAnyPort : NamedArg :=
  { name := some "web", endpoint := ":0", subargs := [] }

/-- The sample environment in which `"both"` resolves to two addresses on
host 1: port 80, whose bind fails with errno 13, and then port 8080, whose
bind would succeed; and `"unsupported"` resolves to two addresses of family
10 on the host of `dualStackEnv`, which has no such family. -/
def mixedEnv : Env :=
  { dualStackEnv with
    getaddrinfo := fun addr def_port =>
      if addr = "both" then
        some [{ family := 2, host := 1, port := 80 }, { family := 2, host := 1, port := 8080 }]
      else if addr = "unsupported" then
        some [{ family := 10, host := 1, port := 8080 }, { family := 10, host := 2, port := 8080 }]
      else dualStackEnv.getaddrinfo addr def_port }

/-! ## Helper lemmas: one bind, one pass over the table -/

theorem le_foldl_max (es : List Int) : ∀ a : Int, a ≤ es.foldl max a := by
  induction es with
  | nil => intro a; exact le_refl a
  | cons e rest ih => intro a; exact le_trans (le_max_left a e) (ih (max a e))

theorem mem_le_foldl_max (es : List Int) : ∀ a : Int, ∀ e ∈ es, e ≤ es.foldl max a := by
  induction es with
  | nil => intro a e he; cases he
  | cons x rest ih =>
    intro a e he
    rcases List.mem_cons.mp he with h | h
    · subst h
      exact le_trans (le_max_right a e) (le_foldl_max rest (max a e))
    · exact ih (max a x) e h

theorem foldl_max_mem (es : List Int) : ∀ a : Int, es.foldl max a = a ∨ es.foldl max a ∈ es := by
  induction es with
  | nil => intro a; exact Or.inl rfl
  | cons x rest ih =>
    intro a
    rcases ih (max a x) with h | h
    · rcases max_choice a x with hm | hm
      · left; rw [List.foldl_cons, h]; exact hm
      · right; rw [List.foldl_cons, h, hm]; exact List.mem_cons_self _ _
    · right; exact List.mem_cons_of_mem _ h

theorem binds_append (a b : List Event) : binds (a ++ b) = binds a ++ binds b := by
  simp [binds]

theorem inherits_append (a b : List Event) : inherits (a ++ b) = inherits a ++ inherits b := by
  simp [inherits]

/-- One call of `mac_opensocket` on a bind outcome that reports a nonzero
`errno` with every failure: it returns that outcome's error code, stores the
returned descriptor, makes exactly one bind call, on `ls.addr`, and records
the descriptor for inheritance exactly when the bind succeeded. -/
theorem mac_opensocket_spec (env : Env) (ls : listen_sock) (s : Mgt)
    (h : (env.VTCP_bind s.nbind ls.addr).sock < 0 → (env.VTCP_bind s.nbind ls.addr).errno ≠ 0) :
    ∃ s2 added, mac_opensocket env ls s
        = Res.ok (bind_err (env.VTCP_bind s.nbind ls.addr),
                  { ls with sock := (env.VTCP_bind s.nbind ls.addr).sock }) s2
      ∧ s2.nbind = s.nbind + 1 ∧ s2.socks = s.socks ∧ s2.listen_args = s.listen_args
      ∧ s2.seq = s.seq ∧ s2.trace = s.trace ++ added ∧ binds added = [ls.addr]
      ∧ inherits added
          = if (env.VTCP_bind s.nbind ls.addr).sock < 0 then []
            else [(env.VTCP_bind s.nbind ls.addr).sock] := by
  by_cases hs : ls.sock > 0 <;> by_cases ho : (env.VTCP_bind s.nbind ls.addr).sock < 0
  · have he := h ho
    simp only [mac_opensocket, bind_err, Mgt.log, if_pos hs, if_pos ho, if_neg he]
    exact ⟨_, [Event.MCH_Fd_Inherit ls.sock none, Event.closefd ls.sock,
      Event.VTCP_bind ls.addr], rfl, rfl, rfl, rfl, rfl, by simp, by simp [binds, Event.bound],
      by simp [inherits, Event.inherited]⟩
  · simp only [mac_opensocket, bind_err, Mgt.log, if_pos hs, if_neg ho]
    exact ⟨_, [Event.MCH_Fd_Inherit ls.sock none, Event.closefd ls.sock,
      Event.VTCP_bind ls.addr,
      Event.MCH_Fd_Inherit (env.VTCP_bind s.nbind ls.addr).sock (some "sock")],
      rfl, rfl, rfl, rfl, rfl, by simp, by simp [binds, Event.bound],
      by simp [inherits, Event.inherited]⟩
  · have he := h ho
    simp only [mac_opensocket, bind_err, Mgt.log, if_neg hs, if_pos ho, if_neg he]
    exact ⟨_, [Event.VTCP_bind ls.addr], rfl, rfl, rfl, rfl, rfl, by simp,
      by simp [binds, Event.bound], by simp [inherits, Event.inherited]⟩
  · simp only [mac_opensocket, bind_err, Mgt.log, if_neg hs, if_neg ho]
    exact ⟨_, [Event.VTCP_bind ls.addr,
      Event.MCH_Fd_Inherit (env.VTCP_bind s.nbind ls.addr).sock (some "sock")],
      rfl, rfl, rfl, rfl, rfl, by simp, by simp [binds, Event.bound],
      by simp [inherits, Event.inherited]⟩

/-- One pass of the loop of `MAC_reopen_sockets` when every failing bind
reports a nonzero `errno`: the loop ends, and its value, the table it leaves,
the number of binds, and the bind and inheritance calls it made are those
determined by the outcomes of the binds, entry by entry. -/
theorem reopen_loop_spec (env : Env) : ∀ (t : List listen_sock) (fail : Int) (s : Mgt),
    (∀ o ∈ reopen_outcomes env s.nbind t, o.sock < 0 → o.errno ≠ 0) →
    ∃ s2 added, reopen_loop env t fail s
        = Res.ok (reopen_fail fail ((reopen_outcomes env s.nbind t).map bind_err),
                  reopen_socks t (reopen_outcomes env s.nbind t)) s2
      ∧ s2.nbind = s.nbind + t.length ∧ s2.socks = s.socks ∧ s2.listen_args = s.listen_args
      ∧ s2.seq = s.seq ∧ s2.trace = s.trace ++ added ∧ binds added = t.map (fun ls => ls.addr)
      ∧ inherits added
          = ((reopen_outcomes env s.nbind t).filter (fun o => decide (0 ≤ o.sock))).map
              (fun o => o.sock) := by
  intro t
  induction t with
  | nil =>
    intro fail s _
    exact ⟨s, [], rfl, rfl, rfl, rfl, rfl, by simp, rfl, rfl⟩
  | cons ls rest ih =>
    intro fail s hE
    have hE0 : (env.VTCP_bind s.nbind ls.addr).sock < 0 → (env.VTCP_bind s.nbind ls.addr).errno ≠ 0 :=
      hE _ (by simp [reopen_outcomes])
    obtain ⟨s2, add1, he, hn, hs, hl, hq, ht, hb, hi⟩ :=
      mac_opensocket_spec env ls (s.log [Event.VJ_master JailMode.JAIL_MASTER_PRIVPORT]) hE0
    have hn2 : s2.nbind = s.nbind + 1 := hn
    have hstep : (s.log [Event.VJ_master JailMode.JAIL_MASTER_PRIVPORT]).nbind = s.nbind := rfl
    rw [hstep] at he hi
    by_cases hz : bind_err (env.VTCP_bind s.nbind ls.addr) = 0
    · obtain ⟨s4, add2, he2, hn4, hs4, hl4, hq4, ht4, hb4, hi4⟩ :=
        ih fail (s2.log [Event.VJ_master JailMode.JAIL_MASTER_LOW])
          (by
            intro o ho
            apply hE
            simp only [reopen_outcomes, List.mem_cons]
            right
            simpa [Mgt.log, hn2] using ho)
      have hnb : (s2.log [Event.VJ_master JailMode.JAIL_MASTER_LOW]).nbind = s.nbind + 1 := hn2
      rw [hnb] at he2 hi4 hn4
      refine ⟨s4, [Event.VJ_master JailMode.JAIL_MASTER_PRIVPORT] ++ add1
        ++ [Event.VJ_master JailMode.JAIL_MASTER_LOW] ++ add2, ?_, ?_, ?_, ?_, ?_, ?_, ?_, ?_⟩
      · simp only [reopen_loop, he, hz, if_true, he2, reopen_outcomes, List.map_cons,
          reopen_socks, reopen_fail]
      · rw [hn4]; simp; omega
      · rw [hs4]; exact hs
      · rw [hl4]; exact hl
      · rw [hq4]; exact hq
      · rw [ht4]; simp [Mgt.log, ht]
      · simp only [binds_append, hb, hb4]
        simp [binds, Event.bound]
      · have hsucc : ¬ (env.VTCP_bind s.nbind ls.addr).sock < 0 := by
          intro hneg
          have := hE0 hneg
          simp [bind_err, hneg] at hz
          exact this hz
        simp only [inherits_append, hi, hi4, if_neg hsucc]
        simp [inherits, Event.inherited, reopen_outcomes, not_lt.mp hsucc]
    · obtain ⟨s4, add2, he2, hn4, hs4, hl4, hq4, ht4, hb4, hi4⟩ :=
        ih (if bind_err (env.VTCP_bind s.nbind ls.addr) > fail
              then bind_err (env.VTCP_bind s.nbind ls.addr) else fail)
          ((s2.log [Event.VJ_master JailMode.JAIL_MASTER_LOW]).log
            [Event.MGT_Complain ls.endpoint (bind_err (env.VTCP_bind s.nbind ls.addr))])
          (by
            intro o ho
            apply hE
            simp only [reopen_outcomes, List.mem_cons]
            right
            simpa [Mgt.log, hn2] using ho)
      have hnb : ((s2.log [Event.VJ_master JailMode.JAIL_MASTER_LOW]).log
            [Event.MGT_Complain ls.endpoint (bind_err (env.VTCP_bind s.nbind ls.addr))]).nbind
            = s.nbind + 1 := hn2
      rw [hnb] at he2 hi4 hn4
      refine ⟨s4, [Event.VJ_master JailMode.JAIL_MASTER_PRIVPORT] ++ add1
        ++ [Event.VJ_master JailMode.JAIL_MASTER_LOW]
        ++ [Event.MGT_Complain ls.endpoint (bind_err (env.VTCP_bind s.nbind ls.addr))]
        ++ add2, ?_, ?_, ?_, ?_, ?_, ?_, ?_, ?_⟩
      · simp only [reopen_loop, he, hz, if_false, he2, reopen_outcomes, List.map_cons,
          reopen_socks, reopen_fail]
      · rw [hn4]; simp; omega
      · rw [hs4]; exact hs
      · rw [hl4]; exact hl
      · rw [hq4]; exact hq
      · rw [ht4]; simp [Mgt.log, ht]
      · simp only [binds_append, hb, hb4]
        simp [binds, Event.bound]
      · have hfail : (env.VTCP_bind s.nbind ls.addr).sock < 0 := by
          by_contra hneg
          exact hz (by simp [bind_err, hneg])
        simp only [inherits_append, hi, hi4, if_pos hfail]
        simp [inherits, Event.inherited, reopen_outcomes, not_le.mpr hfail]

/-- With error codes that are never negative, the value of the loop of
`MAC_reopen_sockets` is the running maximum. -/
theorem reopen_fail_eq_max (errs : List Int) : ∀ fail : Int, 0 ≤ fail →
    (∀ e ∈ errs, 0 ≤ e) → reopen_fail fail errs = errs.foldl max fail := by
  induction errs with
  | nil => intro fail _ _; rfl
  | cons e rest ih =>
    intro fail hf he
    have he0 : 0 ≤ e := he e (List.mem_cons_self _ _)
    have hrest : ∀ x ∈ rest, 0 ≤ x := fun x hx => he x (List.mem_cons_of_mem _ hx)
    simp only [reopen_fail, List.foldl_cons]
    by_cases hz : e = 0
    · subst hz
      rw [if_pos rfl, max_eq_left hf]
      exact ih fail hf hrest
    · rw [if_neg hz]
      by_cases hgt : e > fail
      · rw [if_pos hgt, max_eq_right (le_of_lt hgt)]
        exact ih e he0 hrest
      · rw [if_neg hgt, max_eq_left (not_lt.mp hgt)]
        exact ih fail hf hrest

theorem reopen_socks_length (env : Env) : ∀ (t : List listen_sock) (n : Nat),
    (reopen_socks t (reopen_outcomes env n t)).length = t.length := by
  intro t
  induction t with
  | nil => intro n; rfl
  | cons ls rest ih => intro n; simp [reopen_socks, reopen_outcomes, ih]

theorem reopen_socks_getElem (env : Env) : ∀ (t : List listen_sock) (n i : Nat) (ls : listen_sock),
    t[i]? = some ls →
    (reopen_socks t (reopen_outcomes env n t))[i]?
      = some { ls with sock := (env.VTCP_bind (n + i) ls.addr).sock } := by
  intro t
  induction t with
  | nil => intro n i ls h; simp at h
  | cons x rest ih =>
    intro n i ls h
    cases i with
    | zero =>
      simp only [List.getElem?_cons_zero, Option.some.injEq] at h
      subst h
      simp [reopen_socks, reopen_outcomes]
    | succ k =>
      simp only [List.getElem?_cons_succ] at h
      have := ih (n + 1) k ls h
      simp only [reopen_socks, reopen_outcomes, List.getElem?_cons_succ]
      rw [this]
      have hk : n + 1 + k = n + (k + 1) := by omega
      rw [hk]

theorem reopen_socks_frame (env : Env) : ∀ (t : List listen_sock) (n : Nat),
    (reopen_socks t (reopen_outcomes env n t)).map (fun ls => (ls.addr, ls.endpoint))
      = t.map (fun ls => (ls.addr, ls.endpoint)) := by
  intro t
  induction t with
  | nil => intro n; rfl
  | cons ls rest ih => intro n; simp [reopen_socks, reopen_outcomes, ih]

/-! ## Helper lemmas: one callback -/

/-- The computed form of `mac_callback` on a valid argument pointer and a
candidate that differs from every address of the table: the bind is call
number `s.nbind`, made on the candidate inside the jail bracket. -/
theorem mac_callback_eq (env : Env) (priv : Nat) (sa : suckaddr) (s : Mgt) (la : listen_arg)
    (hla : s.listen_args[priv]? = some la)
    (hno : ∀ ls ∈ s.socks, VSA_Compare sa ls.addr ≠ 0) :
    mac_callback env priv sa s =
      if (env.VTCP_bind s.nbind sa).sock < 0 then
        if (env.VTCP_bind s.nbind sa).errno = 0 then Res.assert_fail
        else if (env.VTCP_bind s.nbind sa).errno ≠ env.EAFNOSUPPORT then
          Res.argv_err (ArgvErr.could_not_get_socket la.endpoint (env.VTCP_bind s.nbind sa).errno)
            (callback_failed s sa)
        else Res.ok 0 (callback_failed s sa)
      else Res.ok 0 (callback_bound env priv la sa s) := by
  have hfind : s.socks.find? (fun ls => decide (VSA_Compare sa ls.addr = 0)) = none := by
    apply List.find?_eq_none.mpr
    intro ls hls
    simpa using hno ls hls
  have hneg : ¬ ((-1 : Int) > 0) := by decide
  by_cases ho : (env.VTCP_bind s.nbind sa).sock < 0
  · by_cases he : (env.VTCP_bind s.nbind sa).errno = 0
    · simp only [mac_callback, hla, hfind, mac_opensocket, Mgt.log, if_neg hneg, if_pos ho,
        if_pos he]
    · by_cases hf : (env.VTCP_bind s.nbind sa).errno ≠ env.EAFNOSUPPORT
      · simp only [mac_callback, hla, hfind, mac_opensocket, Mgt.log, if_neg hneg, if_pos ho,
          if_neg he, if_pos he, ne_eq, if_pos hf, callback_failed,
          List.append_assoc, List.cons_append, List.nil_append]
      · simp only [mac_callback, hla, hfind, mac_opensocket, Mgt.log, if_neg hneg, if_pos ho,
          if_neg he, if_pos he, ne_eq, if_neg hf, callback_failed,
          List.append_assoc, List.cons_append, List.nil_append]
  · by_cases hp : VSA_Port sa = 0
    · simp only [mac_callback, hla, hfind, mac_opensocket, Mgt.log, if_neg hneg, if_neg ho,
        ne_eq, not_true_eq_false, if_false, callback_bound, bound_entry, if_pos hp,
        List.append_assoc, List.cons_append, List.nil_append]
    · simp only [mac_callback, hla, hfind, mac_opensocket, Mgt.log, if_neg hneg, if_neg ho,
        ne_eq, not_true_eq_false, if_false, callback_bound, bound_entry, if_neg hp,
        List.append_assoc, List.cons_append, List.nil_append]

/-- The computed form of `mac_callback` on a valid argument pointer and a
candidate that equals the address of some entry of the table. -/
theorem mac_callback_same_address (env : Env) (priv : Nat) (sa : suckaddr) (s : Mgt)
    (la : listen_arg) (old : listen_sock)
    (hla : s.listen_args[priv]? = some la)
    (hold : old ∈ s.socks) (heq : VSA_Compare sa old.addr = 0) :
    ∃ first, first ∈ s.socks ∧ VSA_Compare sa first.addr = 0
      ∧ mac_callback env priv sa s
          = Res.argv_err (ArgvErr.same_address first.endpoint la.endpoint) s := by
  cases hf : s.socks.find? (fun ls => decide (VSA_Compare sa ls.addr = 0)) with
  | none =>
    have := List.find?_eq_none.mp hf old hold
    simp [heq] at this
  | some first =>
    refine ⟨first, List.mem_of_find?_eq_some hf, ?_, ?_⟩
    · simpa using List.find?_some hf
    · simp only [mac_callback, hla, hf]

/-- Every return of `mac_callback`: the value is 0, the pointer was valid, the
candidate differs from every address of the table, and the state is the one
of a bind dropped for `EAFNOSUPPORT` or the one of a successful bind. -/
theorem mac_callback_ok (env : Env) (priv : Nat) (sa : suckaddr) (s s2 : Mgt) (r : Int)
    (h : mac_callback env priv sa s = Res.ok r s2) :
    r = 0 ∧ (∀ ls ∈ s.socks, VSA_Compare sa ls.addr ≠ 0)
      ∧ ∃ la, s.listen_args[priv]? = some la
        ∧ (((env.VTCP_bind s.nbind sa).sock < 0
              ∧ (env.VTCP_bind s.nbind sa).errno = env.EAFNOSUPPORT
              ∧ (env.VTCP_bind s.nbind sa).errno ≠ 0
              ∧ s2 = callback_failed s sa)
          ∨ (0 ≤ (env.VTCP_bind s.nbind sa).sock
              ∧ s2 = callback_bound env priv la sa s)) := by
  cases hla : s.listen_args[priv]? with
  | none => simp [mac_callback, hla] at h
  | some la =>
    cases hf : s.socks.find? (fun ls => decide (VSA_Compare sa ls.addr = 0)) with
    | some old => simp [mac_callback, hla, hf] at h
    | none =>
      have hno : ∀ ls ∈ s.socks, VSA_Compare sa ls.addr ≠ 0 := by
        intro ls hls
        simpa using List.find?_eq_none.mp hf ls hls
      rw [mac_callback_eq env priv sa s la hla hno] at h
      by_cases ho : (env.VTCP_bind s.nbind sa).sock < 0
      · rw [if_pos ho] at h
        by_cases he : (env.VTCP_bind s.nbind sa).errno = 0
        · rw [if_pos he] at h; cases h
        · rw [if_neg he] at h
          by_cases hfam : (env.VTCP_bind s.nbind sa).errno ≠ env.EAFNOSUPPORT
          · rw [if_pos hfam] at h; cases h
          · rw [if_neg hfam] at h
            cases h
            exact ⟨rfl, hno, la, rfl, Or.inl ⟨ho, not_not.mp hfam, he, rfl⟩⟩
      · rw [if_neg ho] at h
        cases h
        exact ⟨rfl, hno, la, rfl, Or.inr ⟨not_lt.mp ho, rfl⟩⟩

/-- Every return of `MAC_Arg_setup`: the pointer is the tail position of
`listen_args`, and only `listen_args` and `seq` have changed. -/
theorem MAC_Arg_setup_ok (env : Env) (arg : NamedArg) (s s2 : Mgt) (priv : Nat)
    (h : MAC_Arg_setup env arg s = Res.ok priv s2) :
    priv = s.listen_args.length ∧ s2.socks = s.socks ∧ s2.nbind = s.nbind
      ∧ s2.trace = s.trace
      ∧ ∃ la, s2.listen_args = s.listen_args ++ [la] ∧ la.endpoint = arg.endpoint
          ∧ la.socks = [] := by
  unfold MAC_Arg_setup at h
  split at h
  · cases h
  · rename_i name seq2 hname
    simp only at h
    split at h
    · split at h
      · cases h
      · rename_i xp _
        cases h
        exact ⟨rfl, rfl, rfl, rfl, ⟨arg.endpoint, name, some xp, []⟩, by simp, rfl, rfl⟩
    · split at h
      · cases h
      · split at h
        · cases h
        · rename_i xp _ _
          cases h
          exact ⟨rfl, rfl, rfl, rfl, ⟨arg.endpoint, name, some xp, []⟩, by simp, rfl, rfl⟩

theorem VSA_Compare_ne_zero (a b : suckaddr) : VSA_Compare a b ≠ 0 ↔ a ≠ b := by
  unfold VSA_Compare
  by_cases h : a = b <;> simp [h]

/-- One returning callback keeps the addresses of the table pairwise distinct
when the address it adopts, if any, is new to the table. -/
theorem mac_callback_nodup (env : Env) (priv : Nat) (sa : suckaddr) (s s2 : Mgt) (r : Int)
    (hnd : (s.socks.map (fun ls => ls.addr)).Nodup)
    (hfr : adopts_fresh env sa s = true)
    (h : mac_callback env priv sa s = Res.ok r s2) :
    (s2.socks.map (fun ls => ls.addr)).Nodup := by
  obtain ⟨-, hno, la, -, hcase⟩ := mac_callback_ok env priv sa s s2 r h
  rcases hcase with ⟨-, -, -, hs2⟩ | ⟨hsock, hs2⟩
  · subst hs2
    exact hnd
  · subst hs2
    simp only [callback_bound, List.map_append, List.map_cons, List.map_nil]
    apply List.Nodup.append hnd (List.nodup_singleton _)
    rw [List.disjoint_singleton]
    intro hmem
    obtain ⟨ls, hls, hlse⟩ := List.mem_map.mp hmem
    by_cases hp : VSA_Port sa = 0
    · simp only [adopts_fresh, Bool.or_eq_true, decide_eq_true_eq, List.all_eq_true] at hfr
      rcases hfr with (hfr | hfr) | hfr
      · exact hfr hp
      · omega
      · have := (VSA_Compare_ne_zero _ _).mp (hfr ls hls)
        apply this
        simp only [bound_entry, if_pos hp] at hlse
        exact hlse.symm
    · have := (VSA_Compare_ne_zero _ _).mp (hno ls hls)
      apply this
      simp only [bound_entry, if_neg hp] at hlse
      exact hlse.symm

theorem resolver_loop_nodup (env : Env) (priv : Nat) :
    ∀ (res : List suckaddr) (ret : Int) (s s2 : Mgt) (r : Int),
      (s.socks.map (fun ls => ls.addr)).Nodup →
      callbacks_fresh env priv res s = true →
      resolver_loop (mac_callback env priv) res ret s = Res.ok r s2 →
      (s2.socks.map (fun ls => ls.addr)).Nodup := by
  intro res
  induction res with
  | nil =>
    intro ret s s2 r hnd _ h
    simp only [resolver_loop] at h
    cases h
    exact hnd
  | cons sa rest ih =>
    intro ret s s2 r hnd hfr h
    simp only [callbacks_fresh, Bool.and_eq_true] at hfr
    simp only [resolver_loop] at h
    cases hc : mac_callback env priv sa s with
    | assert_fail => simp [hc] at h
    | argv_err e s1 => simp [hc] at h
    | ok r1 s1 =>
      have hnd1 := mac_callback_nodup env priv sa s s1 r1 hnd hfr.1 hc
      have hr1 : r1 = 0 := (mac_callback_ok env priv sa s s1 r1 hc).1
      subst hr1
      have hfr2 := hfr.2
      simp only [hc, ne_eq, not_true_eq_false, if_false] at h hfr2
      exact ih 0 s1 s2 r hnd1 hfr2 h

/-- One returning `MAC_Arg` call keeps the addresses of the table pairwise
distinct when every address adopted during the call is new to the table. -/
theorem MAC_Arg_nodup (env : Env) (arg : NamedArg) (s s2 : Mgt)
    (hnd : (s.socks.map (fun ls => ls.addr)).Nodup)
    (hfr : MAC_Arg_fresh env arg s = true)
    (h : MAC_Arg env arg s = Res.ok () s2) :
    (s2.socks.map (fun ls => ls.addr)).Nodup := by
  unfold MAC_Arg at h
  cases hset : MAC_Arg_setup env arg s with
  | assert_fail => simp [hset] at h
  | argv_err e s1 => simp [hset] at h
  | ok priv s1 =>
    have hs1 := (MAC_Arg_setup_ok env arg s s1 priv hset).2.1
    simp only [hset, VSS_resolver] at h
    simp only [MAC_Arg_fresh, hset] at hfr
    cases hg : env.getaddrinfo arg.endpoint "80" with
    | none =>
      simp only [hg] at h
      split at h
      · cases h
      · simp at h
    | some res =>
      simp only [hg] at h hfr
      cases hl : resolver_loop (mac_callback env priv) res 0 s1 with
      | assert_fail => simp [hl] at h
      | argv_err e s3 => simp [hl] at h
      | ok error s3 =>
        have hnd3 := resolver_loop_nodup env priv res 0 s1 s3 error (hs1 ▸ hnd) hfr hl
        simp only [hl] at h
        split at h
        · cases h
        · split at h
          · cases h
          · cases h
            exact hnd3

/-! ## Helper lemmas: the trace only grows -/

theorem Mgt.after_refl (s : Mgt) : Mgt.after s s :=
  ⟨List.prefix_refl _, le_refl _⟩

/-- A relation between states that is reflexive, transitive and established by
every call of the callback is established by the whole loop of the resolver. -/
theorem resolver_loop_holds (func : suckaddr → Mgt → Res Int) (R : Mgt → Mgt → Prop)
    (hrefl : ∀ s, R s s) (htrans : ∀ a b c, R a b → R b c → R a c)
    (hstep : ∀ sa s, (func sa s).holds (R s)) :
    ∀ (res : List suckaddr) (ret : Int) (s : Mgt), (resolver_loop func res ret s).holds (R s) := by
  intro res
  induction res with
  | nil => intro ret s; exact hrefl s
  | cons sa rest ih =>
    intro ret s
    have h1 := hstep sa s
    simp only [resolver_loop]
    cases hc : func sa s with
    | assert_fail => trivial
    | argv_err e s1 => rw [hc] at h1; exact h1
    | ok r s1 =>
      rw [hc] at h1
      simp only
      split
      · exact h1
      · have h2 := ih r s1
        cases hl : resolver_loop func rest r s1 with
        | assert_fail => trivial
        | argv_err e s2 => rw [hl] at h2; exact htrans _ _ _ h1 h2
        | ok r2 s2 => rw [hl] at h2; exact htrans _ _ _ h1 h2

theorem MAC_Arg_setup_after (env : Env) (arg : NamedArg) (s : Mgt) :
    (MAC_Arg_setup env arg s).holds (fun s2 => Mgt.after s s2 ∧ s2.socks = s.socks) := by
  unfold MAC_Arg_setup
  split
  · trivial
  · simp only
    split
    · split
      · trivial
      · exact ⟨Mgt.after_refl s, rfl⟩
    · split
      · exact ⟨Mgt.after_refl s, rfl⟩
      · split
        · exact ⟨Mgt.after_refl s, rfl⟩
        · exact ⟨Mgt.after_refl s, rfl⟩

theorem getElem?_append_cons_at {α : Type} (l m : List α) (a : α) (n : Nat)
    (h : n = l.length) : (l ++ a :: m)[n]? = some a := by
  subst h
  rw [List.getElem?_append_right (le_refl _)]
  simp

theorem Mgt.keeps_refl (s : Mgt) : Mgt.keeps s s :=
  List.prefix_refl _

theorem Mgt.keeps_trans {a b c : Mgt} (h1 : Mgt.keeps a b) (h2 : Mgt.keeps b c) :
    Mgt.keeps a c :=
  List.IsPrefix.trans h1 h2

/-- Every call of `mac_opensocket` fails an assertion or returns, with the
entry changed in its descriptor only. -/
theorem mac_opensocket_cases (env : Env) (ls : listen_sock) (s : Mgt) :
    mac_opensocket env ls s = Res.assert_fail
      ∨ ∃ err s2, mac_opensocket env ls s
          = Res.ok (err, { ls with sock := (env.VTCP_bind s.nbind ls.addr).sock }) s2 := by
  by_cases hs : ls.sock > 0 <;> by_cases ho : (env.VTCP_bind s.nbind ls.addr).sock < 0
    <;> by_cases he : (env.VTCP_bind s.nbind ls.addr).errno = 0
  · left; simp only [mac_opensocket, Mgt.log, if_pos hs, if_pos ho, if_pos he]
  · right; simp only [mac_opensocket, Mgt.log, if_pos hs, if_pos ho, if_neg he]
    exact ⟨_, _, rfl⟩
  · right; simp only [mac_opensocket, Mgt.log, if_pos hs, if_neg ho]
    exact ⟨_, _, rfl⟩
  · right; simp only [mac_opensocket, Mgt.log, if_pos hs, if_neg ho]
    exact ⟨_, _, rfl⟩
  · left; simp only [mac_opensocket, Mgt.log, if_neg hs, if_pos ho, if_pos he]
  · right; simp only [mac_opensocket, Mgt.log, if_neg hs, if_pos ho, if_neg he]
    exact ⟨_, _, rfl⟩
  · right; simp only [mac_opensocket, Mgt.log, if_neg hs, if_neg ho]
    exact ⟨_, _, rfl⟩
  · right; simp only [mac_opensocket, Mgt.log, if_neg hs, if_neg ho]
    exact ⟨_, _, rfl⟩

/-- The loop of `MAC_reopen_sockets` never ends in `ARGV_ERR`, and when it
returns, the entries it leaves have the addresses and endpoint displays they
had. -/
theorem reopen_loop_frame (env : Env) :
    ∀ (t : List listen_sock) (fail : Int) (s : Mgt),
      (∀ e s2, reopen_loop env t fail s ≠ Res.argv_err e s2)
      ∧ ∀ r t2 s2, reopen_loop env t fail s = Res.ok (r, t2) s2 →
        t2.map (fun ls => (ls.addr, ls.endpoint)) = t.map (fun ls => (ls.addr, ls.endpoint)) := by
  intro t
  induction t with
  | nil =>
    intro fail s
    refine ⟨?_, ?_⟩
    · intro e s2 h
      simp [reopen_loop] at h
    · intro r t2 s2 h
      simp only [reopen_loop, Res.ok.injEq, Prod.mk.injEq] at h
      rw [← h.1.2]
  | cons ls rest ih =>
    intro fail s
    rcases mac_opensocket_cases env ls (s.log [Event.VJ_master JailMode.JAIL_MASTER_PRIVPORT])
      with ho | ⟨err, s1, ho⟩
    · refine ⟨?_, ?_⟩
      · intro e s2 h
        simp [reopen_loop, ho] at h
      · intro r t2 s2 h
        simp [reopen_loop, ho] at h
    · refine ⟨?_, ?_⟩
      · intro e s2 h
        simp only [reopen_loop, ho] at h
        split at h
        · cases h
        · rename_i e4 s4 hl
          exact (ih _ _).1 e4 s4 hl
        · cases h
      · intro r t2 s2 h
        simp only [reopen_loop, ho] at h
        split at h
        · rename_i r4 done s4 hl
          simp only [Res.ok.injEq, Prod.mk.injEq] at h
          obtain ⟨⟨-, ht2⟩, -⟩ := h
          subst ht2
          have := (ih _ _).2 r4 done s4 hl
          simp [this]
        · cases h
        · cases h

theorem MAC_reopen_sockets_keeps (env : Env) (s : Mgt) :
    (MAC_reopen_sockets env s).holds (Mgt.keeps s) := by
  unfold MAC_reopen_sockets
  cases hl : reopen_loop env s.socks 0 s with
  | assert_fail => trivial
  | argv_err e s2 => exact absurd hl ((reopen_loop_frame env s.socks 0 s).1 e s2)
  | ok v s2 =>
    obtain ⟨r, t2⟩ := v
    simp only [Res.holds, Mgt.keeps]
    rw [(reopen_loop_frame env s.socks 0 s).2 r t2 s2 hl]

theorem mac_callback_keeps (env : Env) (priv : Nat) (sa : suckaddr) (s : Mgt) :
    (mac_callback env priv sa s).holds (Mgt.keeps s) := by
  cases hla : s.listen_args[priv]? with
  | none => simp [mac_callback, hla, Res.holds]
  | some la =>
    cases hf : s.socks.find? (fun ls => decide (VSA_Compare sa ls.addr = 0)) with
    | some old =>
      simp only [mac_callback, hla, hf, Res.holds]
      exact Mgt.keeps_refl s
    | none =>
      have hno : ∀ ls ∈ s.socks, VSA_Compare sa ls.addr ≠ 0 := by
        intro ls hls
        simpa using List.find?_eq_none.mp hf ls hls
      rw [mac_callback_eq env priv sa s la hla hno]
      have hfail : Mgt.keeps s (callback_failed s sa) := List.prefix_refl _
      have hbound : Mgt.keeps s (callback_bound env priv la sa s) := by
        simp only [Mgt.keeps, callback_bound, List.map_append]
        exact List.prefix_append _ _
      split
      · split
        · trivial
        · split
          · exact hfail
          · exact hfail
      · exact hbound

theorem MAC_Arg_keeps (env : Env) (arg : NamedArg) (s : Mgt) :
    (MAC_Arg env arg s).holds (Mgt.keeps s) := by
  have h1 := MAC_Arg_setup_after env arg s
  unfold MAC_Arg
  cases hset : MAC_Arg_setup env arg s with
  | assert_fail => trivial
  | argv_err e s1 =>
    rw [hset] at h1
    simp only [Res.holds, Mgt.keeps, h1.2]
    exact List.prefix_refl _
  | ok priv s1 =>
    rw [hset] at h1
    have hk1 : Mgt.keeps s s1 := by
      simp only [Mgt.keeps, h1.2]
      exact List.prefix_refl _
    simp only [VSS_resolver]
    cases hg : env.getaddrinfo arg.endpoint "80" with
    | none =>
      simp only
      split
      · trivial
      · split
        · exact hk1
        · exact hk1
    | some res =>
      have h2 := resolver_loop_holds (mac_callback env priv) Mgt.keeps Mgt.keeps_refl
        (fun _ _ _ => Mgt.keeps_trans) (mac_callback_keeps env priv) res 0 s1
      simp only
      cases hl : resolver_loop (mac_callback env priv) res 0 s1 with
      | assert_fail => trivial
      | argv_err e s3 => rw [hl] at h2; exact Mgt.keeps_trans hk1 h2
      | ok error s3 =>
        rw [hl] at h2
        simp only
        split
        · trivial
        · split
          · exact Mgt.keeps_trans hk1 h2
          · exact Mgt.keeps_trans hk1 h2

theorem run_ops_keeps (env : Env) : ∀ (ops : List Op) (s s2 : Mgt),
    run_ops env ops s = Res.ok () s2 → Mgt.keeps s s2 := by
  intro ops
  induction ops with
  | nil =>
    intro s s2 h
    simp only [run_ops] at h
    cases h
    exact Mgt.keeps_refl s
  | cons op rest ih =>
    intro s s2 h
    simp only [run_ops] at h
    have hstep : (op.run env s).holds (Mgt.keeps s) := by
      cases op with
      | callback priv sa =>
        have := mac_callback_keeps env priv sa s
        simp only [Op.run]
        cases hc : mac_callback env priv sa s with
        | assert_fail => trivial
        | argv_err e s1 => rw [hc] at this; exact this
        | ok r s1 => rw [hc] at this; exact this
      | arg a => exact MAC_Arg_keeps env a s
      | reopen =>
        have := MAC_reopen_sockets_keeps env s
        simp only [Op.run]
        cases hc : MAC_reopen_sockets env s with
        | assert_fail => trivial
        | argv_err e s1 => rw [hc] at this; exact this
        | ok r s1 => rw [hc] at this; exact this
    cases hc : op.run env s with
    | assert_fail => simp [hc] at h
    | argv_err e s1 => simp [hc] at h
    | ok u s1 =>
      rw [hc] at hstep
      simp only [hc] at h
      exact Mgt.keeps_trans hstep (ih s1 s2 h)

/-! ## Helper lemmas: an argument without a socket -/

/-- When the label fits its buffer and the default transport is registered,
no assertion of `MAC_Arg_setup` fails. -/
theorem MAC_Arg_setup_ne_assert (env : Env) (arg : NamedArg) (s : Mgt)
    (hname : (MAC_Arg_name arg.name s.seq).isSome = true)
    (hhttp : arg.subargs = [] → (env.XPORT_Find "http").isSome = true) :
    MAC_Arg_setup env arg s ≠ Res.assert_fail := by
  unfold MAC_Arg_setup
  cases hn : MAC_Arg_name arg.name s.seq with
  | none => simp [hn] at hname
  | some v =>
    obtain ⟨name, seq2⟩ := v
    simp only
    cases hsub : arg.subargs with
    | nil =>
      have := hhttp hsub
      cases hx : env.XPORT_Find "http" with
      | none => simp [hx] at this
      | some xp => simp
    | cons av2 more =>
      simp only [List.getElem?_cons_zero]
      cases hx : env.XPORT_Find av2 with
      | none => simp
      | some xp =>
        simp only
        split <;> simp

/-! ## Reopening the table -/

/-- C1. Whatever the listen table and the outcomes of the per-entry binds
(a positive error code on failure, 0 on success), `MAC_reopen_sockets` returns,
and its value is the maximum of the per-entry error codes: it bounds every one
of them, it is 0 or one of them, and it is 0 exactly when every bind succeeded. -/
theorem MAC_reopen_sockets_returns_max (env : Env) (s : Mgt)
    (hE : ∀ o ∈ reopen_outcomes env s.nbind s.socks, o.sock < 0 → 0 < o.errno) :
    ∃ r s2, MAC_reopen_sockets env s = Res.ok r s2
      ∧ r = ((reopen_outcomes env s.nbind s.socks).map bind_err).foldl max 0
      ∧ (∀ e ∈ (reopen_outcomes env s.nbind s.socks).map bind_err, e ≤ r)
      ∧ (r = 0 ∨ r ∈ (reopen_outcomes env s.nbind s.socks).map bind_err)
      ∧ (r = 0 ↔ ∀ o ∈ reopen_outcomes env s.nbind s.socks, 0 ≤ o.sock) := by
  obtain ⟨s2, added, he, -⟩ := reopen_loop_spec env s.socks 0 s
    (fun o ho hneg => ne_of_gt (hE o ho hneg))
  have hnonneg : ∀ e ∈ (reopen_outcomes env s.nbind s.socks).map bind_err, 0 ≤ e := by
    intro e he
    obtain ⟨o, ho, hoe⟩ := List.mem_map.mp he
    rw [← hoe]
    unfold bind_err
    split
    · exact le_of_lt (hE o ho ‹_›)
    · exact le_refl 0
  rw [reopen_fail_eq_max _ 0 (le_refl 0) hnonneg] at he
  have hub := mem_le_foldl_max ((reopen_outcomes env s.nbind s.socks).map bind_err) 0
  have hmem := foldl_max_mem ((reopen_outcomes env s.nbind s.socks).map bind_err) 0
  refine ⟨_, { s2 with socks := reopen_socks s.socks (reopen_outcomes env s.nbind s.socks) },
    ?_, rfl, hub, hmem, ?_, ?_⟩
  · simp only [MAC_reopen_sockets, he]
  · intro h0 o ho
    by_contra hneg
    have hlt : o.sock < 0 := not_le.mp hneg
    have hpos := hE o ho hlt
    have hle := hub (bind_err o) (List.mem_map_of_mem _ ho)
    rw [h0] at hle
    simp only [bind_err, if_pos hlt] at hle
    omega
  · intro hall
    rcases hmem with h | h
    · exact h
    · obtain ⟨o, ho, hoe⟩ := List.mem_map.mp h
      rw [← hoe]
      simp [bind_err, not_lt.mpr (hall o ho)]

/-- C1 at the sample table: the binds fail with 13 and 98 on two entries and
succeed on the third, and the call returns 98. -/
theorem MAC_reopen_sockets_returns_max_witness :
    (∀ o ∈ reopen_outcomes sampleEnv sampleTable.nbind sampleTable.socks,
        o.sock < 0 → 0 < o.errno)
    ∧ ∃ r s2, MAC_reopen_sockets sampleEnv sampleTable = Res.ok r s2
      ∧ r = ((reopen_outcomes sampleEnv sampleTable.nbind sampleTable.socks).map
              bind_err).foldl max 0
      ∧ (∀ e ∈ (reopen_outcomes sampleEnv sampleTable.nbind sampleTable.socks).map bind_err,
            e ≤ r)
      ∧ (r = 0 ∨ r ∈ (reopen_outcomes sampleEnv sampleTable.nbind sampleTable.socks).map
            bind_err)
      ∧ (r = 0 ↔ ∀ o ∈ reopen_outcomes sampleEnv sampleTable.nbind sampleTable.socks,
            0 ≤ o.sock) :=
  ⟨by decide, MAC_reopen_sockets_returns_max sampleEnv sampleTable (by decide)⟩

/-! ## Adding listen sockets -/

/-- C2. A candidate address that compares equal to the address of some entry
of the listen table, wherever that entry stands and whichever argument made
it, makes `mac_callback` end in the "have same address" error, naming an entry
with that address and the argument's endpoint; the state at the error is the
state at the call, so no bind was attempted and the table is unchanged. -/
theorem mac_callback_duplicate (env : Env) (priv : Nat) (sa : suckaddr) (s : Mgt)
    (la : listen_arg) (old : listen_sock)
    (hla : s.listen_args[priv]? = some la)
    (hold : old ∈ s.socks) (heq : VSA_Compare sa old.addr = 0) :
    ∃ first, first ∈ s.socks ∧ VSA_Compare sa first.addr = 0
      ∧ mac_callback env priv sa s
          = Res.argv_err (ArgvErr.same_address first.endpoint la.endpoint) s := by
  cases hf : s.socks.find? (fun ls => decide (VSA_Compare sa ls.addr = 0)) with
  | none =>
    have := List.find?_eq_none.mp hf old hold
    simp [heq] at this
  | some first =>
    refine ⟨first, List.mem_of_find?_eq_some hf, ?_, ?_⟩
    · simpa using List.find?_some hf
    · simp only [mac_callback, hla, hf]


/-- C2 at the sample state: the candidate with port 8080 equals the address of
the entry made by the earlier argument. -/
theorem mac_callback_duplicate_witness :
    ∃ first, first ∈ sampleResolving.socks
      ∧ VSA_Compare { family := 2, host := 0, port := 8080 } first.addr = 0
      ∧ mac_callback sampleEnv 1 { family := 2, host := 0, port := 8080 } sampleResolving
          = Res.argv_err (ArgvErr.same_address first.endpoint "localhost:8080")
              sampleResolving :=
  mac_callback_duplicate sampleEnv 1 { family := 2, host := 0, port := 8080 } sampleResolving
    { endpoint := "localhost:8080", name := "a1", transport := some { name := "http" },
      socks := [] }
    (sampleSock 8080 4) rfl (List.mem_singleton.mpr rfl) (by decide)

/-- C3 as stated fails: with a system that reports the same local address for
two sockets bound from port 0, two `-a :0` arguments both succeed from the
empty table and leave two entries with equal address. -/
theorem MAC_Args_adopted_address_collision :
    ∃ s, MAC_Args collideEnv [anyPort, anyPort] Mgt.init = Res.ok () s
      ∧ ¬ (s.socks.map (fun ls => ls.addr)).Nodup :=
  ⟨_, rfl, by decide⟩

/-- C3, amended. After any sequence of returning `MAC_Arg` calls from the empty
table, no two entries of the table have equal address, provided that every
address adopted from the system for a port-0 candidate was new to the table
when it was adopted (the check of `mac_callback` compares the candidate
address only). -/
theorem MAC_Args_nodup (env : Env) (args : List NamedArg) (s : Mgt)
    (hfr : MAC_Args_fresh env args Mgt.init = true)
    (h : MAC_Args env args Mgt.init = Res.ok () s) :
    (s.socks.map (fun ls => ls.addr)).Nodup := by
  have key : ∀ (args : List NamedArg) (s0 s : Mgt),
      (s0.socks.map (fun ls => ls.addr)).Nodup →
      MAC_Args_fresh env args s0 = true →
      MAC_Args env args s0 = Res.ok () s →
      (s.socks.map (fun ls => ls.addr)).Nodup := by
    intro args
    induction args with
    | nil =>
      intro s0 s hnd _ h
      simp only [MAC_Args] at h
      cases h
      exact hnd
    | cons arg rest ih =>
      intro s0 s hnd hfr h
      simp only [MAC_Args_fresh, Bool.and_eq_true] at hfr
      simp only [MAC_Args] at h
      cases hc : MAC_Arg env arg s0 with
      | assert_fail => simp [hc] at h
      | argv_err e s1 => simp [hc] at h
      | ok u s1 =>
        have hfr2 := hfr.2
        simp only [hc] at h hfr2
        exact ih s1 s (MAC_Arg_nodup env arg s0 s1 hnd hfr.1 hc) hfr2 h
  exact key args Mgt.init s List.nodup_nil hfr h

/-- C3, amended, at a sample run: `-a :0`, `-a :8080`, `-a :0` with a system
that reports a different port for every socket. -/
theorem MAC_Args_nodup_witness :
    MAC_Args_fresh sampleEnv [anyPort, port8080, anyPort] Mgt.init = true
    ∧ ∃ s, MAC_Args sampleEnv [anyPort, port8080, anyPort] Mgt.init = Res.ok () s
      ∧ s.socks.length = 3 ∧ (s.socks.map (fun ls => ls.addr)).Nodup :=
  ⟨by decide, _, rfl, by decide,
    MAC_Args_nodup sampleEnv [anyPort, port8080, anyPort] _ (by decide) rfl⟩


/-- C8. Whatever the listen table, when every failing bind reports its errno,
`MAC_reopen_sockets` returns after exactly one bind per entry, made in table
order on the entry's address, whether earlier binds failed or not; afterwards
the table has the same entries in the same order, each holding the descriptor
its bind returned, and the descriptors of the successful binds have been
recorded for inheritance. -/
theorem MAC_reopen_sockets_rebinds_every_entry (env : Env) (s : Mgt)
    (hE : ∀ o ∈ reopen_outcomes env s.nbind s.socks, o.sock < 0 → o.errno ≠ 0) :
    ∃ r s2 added, MAC_reopen_sockets env s = Res.ok r s2
      ∧ s2.trace = s.trace ++ added
      ∧ binds added = s.socks.map (fun ls => ls.addr)
      ∧ s2.nbind = s.nbind + s.socks.length
      ∧ s2.socks.length = s.socks.length
      ∧ (∀ (i : Nat) (ls : listen_sock), s.socks[i]? = some ls →
          s2.socks[i]? = some { ls with sock := (env.VTCP_bind (s.nbind + i) ls.addr).sock })
      ∧ inherits added
          = ((reopen_outcomes env s.nbind s.socks).filter (fun o => decide (0 ≤ o.sock))).map
              (fun o => o.sock) := by
  obtain ⟨s2, added, he, hn, -, -, -, ht, hb, hi⟩ := reopen_loop_spec env s.socks 0 s hE
  refine ⟨reopen_fail 0 ((reopen_outcomes env s.nbind s.socks).map bind_err),
    { s2 with socks := reopen_socks s.socks (reopen_outcomes env s.nbind s.socks) },
    added, ?_, ht, hb, hn, reopen_socks_length env s.socks s.nbind, ?_, hi⟩
  · simp only [MAC_reopen_sockets, he]
  · intro i ls hls
    exact reopen_socks_getElem env s.socks s.nbind i ls hls

/-- C8 at the sample table: three entries, three binds in table order, two of
them failing; the first entry holds the new descriptor 8. -/
theorem MAC_reopen_sockets_rebinds_every_entry_witness :
    (∀ o ∈ reopen_outcomes sampleEnv sampleTable.nbind sampleTable.socks,
        o.sock < 0 → o.errno ≠ 0)
    ∧ ∃ r s2 added, MAC_reopen_sockets sampleEnv sampleTable = Res.ok r s2
      ∧ s2.trace = sampleTable.trace ++ added
      ∧ binds added = sampleTable.socks.map (fun ls => ls.addr)
      ∧ s2.nbind = sampleTable.nbind + sampleTable.socks.length
      ∧ s2.socks.length = sampleTable.socks.length
      ∧ (∀ (i : Nat) (ls : listen_sock), sampleTable.socks[i]? = some ls →
          s2.socks[i]?
            = some { ls with sock := (sampleEnv.VTCP_bind (sampleTable.nbind + i) ls.addr).sock })
      ∧ inherits added
          = ((reopen_outcomes sampleEnv sampleTable.nbind sampleTable.socks).filter
              (fun o => decide (0 ≤ o.sock))).map (fun o => o.sock) :=
  ⟨by decide, MAC_reopen_sockets_rebinds_every_entry sampleEnv sampleTable (by decide)⟩

/-- C9. Let `mac_callback` bind a candidate with port 0: the entry it appends
carries the address the system reports for the new socket.  After any further
callbacks, `MAC_Arg` calls and `MAC_reopen_sockets` calls that return, a
`MAC_reopen_sockets` call (every failing bind reporting its errno) binds each
entry at the address stored on it, so that entry at the adopted address and
not at the port-0 candidate, and it leaves the address and the endpoint
display of every entry as they were, whether the entry's bind succeeds or
fails. -/
theorem MAC_reopen_sockets_binds_adopted_address (env : Env) (priv : Nat) (sa : suckaddr)
    (s s1 s2 : Mgt) (r : Int) (ops : List Op)
    (hport : VSA_Port sa = 0)
    (hcb : mac_callback env priv sa s = Res.ok r s1)
    (hfd : 0 ≤ (env.VTCP_bind s.nbind sa).sock)
    (hops : run_ops env ops s1 = Res.ok () s2)
    (hE : ∀ o ∈ reopen_outcomes env s2.nbind s2.socks, o.sock < 0 → o.errno ≠ 0) :
    ∃ r3 s3 added, MAC_reopen_sockets env s2 = Res.ok r3 s3
      ∧ s3.trace = s2.trace ++ added
      ∧ (s1.socks[s.socks.length]?).map (fun ls => ls.addr)
          = some (env.VTCP_my_suckaddr (s.nbind + 1) (env.VTCP_bind s.nbind sa).sock)
      ∧ (binds added)[s.socks.length]?
          = some (env.VTCP_my_suckaddr (s.nbind + 1) (env.VTCP_bind s.nbind sa).sock)
      ∧ binds added = s2.socks.map (fun ls => ls.addr)
      ∧ s3.socks.map (fun ls => ls.addr) = s2.socks.map (fun ls => ls.addr)
      ∧ s3.socks.map (fun ls => ls.endpoint) = s2.socks.map (fun ls => ls.endpoint) := by
  obtain ⟨-, -, la, -, hcase⟩ := mac_callback_ok env priv sa s s1 r hcb
  have hs1 : s1 = callback_bound env priv la sa s := by
    rcases hcase with ⟨hneg, -⟩ | ⟨-, h⟩
    · omega
    · exact h
  obtain ⟨s3, added, he, -, -, -, -, ht, hb, -⟩ := reopen_loop_spec env s2.socks 0 s2 hE
  have hkeep := run_ops_keeps env ops s1 s2 hops
  have hcreated : (s1.socks[s.socks.length]?).map (fun ls => ls.addr)
      = some (env.VTCP_my_suckaddr (s.nbind + 1) (env.VTCP_bind s.nbind sa).sock) := by
    rw [hs1]
    simp [callback_bound, bound_entry, hport]
  have hstored : (s2.socks.map (fun ls => ls.addr))[s.socks.length]?
      = some (env.VTCP_my_suckaddr (s.nbind + 1) (env.VTCP_bind s.nbind sa).sock) := by
    obtain ⟨more, hmore⟩ := hkeep
    have hmap : s2.socks.map (fun ls => ls.addr)
        = s1.socks.map (fun ls => ls.addr) ++ more.map (fun p => p.1) := by
      have := congrArg (List.map (fun p : suckaddr × String => p.1)) hmore
      simpa [List.map_append, List.map_map, Function.comp_def] using this.symm
    rw [hmap, hs1]
    simp only [callback_bound, bound_entry, if_pos hport, List.map_append, List.map_cons,
      List.map_nil, List.append_assoc, List.singleton_append]
    exact getElem?_append_cons_at _ _ _ _ (by simp)
  have hframe := reopen_socks_frame env s2.socks s2.nbind
  refine ⟨reopen_fail 0 ((reopen_outcomes env s2.nbind s2.socks).map bind_err),
    { s3 with socks := reopen_socks s2.socks (reopen_outcomes env s2.nbind s2.socks) },
    added, ?_, ht, hcreated, ?_, hb, ?_, ?_⟩
  · simp only [MAC_reopen_sockets, he]
  · rw [hb]
    exact hstored
  · have := congrArg (List.map (fun p : suckaddr × String => p.1)) hframe
    simpa [List.map_map, Function.comp_def] using this
  · have := congrArg (List.map (fun p : suckaddr × String => p.2)) hframe
    simpa [List.map_map, Function.comp_def] using this

/-- C9 at a sample run: `-a :0` is bound and reported on port 40005; after a
reopen and `-a :8080`, the next reopen binds port 40005 for the first entry. -/
theorem MAC_reopen_sockets_binds_adopted_address_witness :
    ∃ s2 r3 s3 added,
      run_ops sampleEnv [Op.callback 0 { family := 2, host := 0, port := 0 }, Op.reopen,
        Op.arg port8080] sampleAnyPort = Res.ok () s2
      ∧ MAC_reopen_sockets sampleEnv s2 = Res.ok r3 s3
      ∧ s3.trace = s2.trace ++ added
      ∧ (binds added)[0]? = some { family := 2, host := 0, port := 40005 }
      ∧ s3.socks.map (fun ls => ls.addr) = s2.socks.map (fun ls => ls.addr)
      ∧ s3.socks.map (fun ls => ls.endpoint) = s2.socks.map (fun ls => ls.endpoint) :=
  have h := MAC_reopen_sockets_binds_adopted_address sampleEnv 0
    { family := 2, host := 0, port := 0 } sampleAnyPort _ _ 0 [Op.reopen, Op.arg port8080]
    rfl rfl (by decide) rfl (by decide)
  ⟨_, h.choose, h.choose_spec.choose, h.choose_spec.choose_spec.choose, rfl,
    h.choose_spec.choose_spec.choose_spec.1,
    h.choose_spec.choose_spec.choose_spec.2.1,
    h.choose_spec.choose_spec.choose_spec.2.2.2.1,
    h.choose_spec.choose_spec.choose_spec.2.2.2.2.2.1,
    h.choose_spec.choose_spec.choose_spec.2.2.2.2.2.2⟩

/-- When none of the candidates is bound, the loop of the resolver over
`mac_callback` ends in the `ARGV_ERR` of the first fatal candidate with the
table unchanged, or every candidate is dropped and the loop returns with the
table and the arguments unchanged. -/
theorem resolver_loop_none_bound (env : Env) (priv : Nat) (la : listen_arg) :
    ∀ (res : List suckaddr) (ret : Int) (s : Mgt),
      s.listen_args[priv]? = some la →
      none_bound env s.socks s.nbind res = true →
      (∃ s2, resolver_loop (mac_callback env priv) res ret s
            = Res.argv_err (no_socket_error env la.endpoint s.socks s.nbind res) s2
          ∧ s2.socks = s.socks)
      ∨ (∃ r s2, resolver_loop (mac_callback env priv) res ret s = Res.ok r s2
          ∧ s2.socks = s.socks ∧ s2.listen_args = s.listen_args
          ∧ no_socket_error env la.endpoint s.socks s.nbind res
              = ArgvErr.got_no_sockets la.endpoint) := by
  intro res
  induction res with
  | nil =>
    intro ret s _ _
    exact Or.inr ⟨ret, s, rfl, rfl, rfl, rfl⟩
  | cons sa rest ih =>
    intro ret s hla hnb
    cases hf : s.socks.find? (fun ls => decide (VSA_Compare sa ls.addr = 0)) with
    | some old =>
      left
      refine ⟨s, ?_, rfl⟩
      simp only [resolver_loop, mac_callback, hla, hf, no_socket_error]
    | none =>
      have hno : ∀ ls ∈ s.socks, VSA_Compare sa ls.addr ≠ 0 := by
        intro ls hls
        simpa using List.find?_eq_none.mp hf ls hls
      have hany : s.socks.any (fun ls => decide (VSA_Compare sa ls.addr = 0)) = false := by
        rw [List.any_eq_false]
        intro ls hls
        simpa using hno ls hls
      simp only [none_bound, hany, Bool.false_or, Bool.and_eq_true, Bool.or_eq_true,
        decide_eq_true_eq] at hnb
      obtain ⟨⟨hsock, herr⟩, hrest⟩ := hnb
      have hcb := mac_callback_eq env priv sa s la hla hno
      rw [if_pos hsock, if_neg herr] at hcb
      by_cases hfam : (env.VTCP_bind s.nbind sa).errno ≠ env.EAFNOSUPPORT
      · rw [if_pos hfam] at hcb
        left
        refine ⟨callback_failed s sa, ?_, rfl⟩
        simp only [resolver_loop, hcb, no_socket_error, hf, if_pos hfam]
      · rw [if_neg hfam] at hcb
        have hnext : none_bound env (callback_failed s sa).socks (callback_failed s sa).nbind rest
            = true := by
          rcases hrest with h | h
          · exact absurd h hfam
          · exact h
        have hloop : resolver_loop (mac_callback env priv) (sa :: rest) ret s
            = resolver_loop (mac_callback env priv) rest 0 (callback_failed s sa) := by
          simp only [resolver_loop, hcb, ne_eq, not_true_eq_false, if_false]
        have herror : no_socket_error env la.endpoint s.socks s.nbind (sa :: rest)
            = no_socket_error env la.endpoint (callback_failed s sa).socks
                (callback_failed s sa).nbind rest := by
          simp only [no_socket_error, hf, if_neg hfam]
          rfl
        rw [hloop, herror]
        rcases ih 0 (callback_failed s sa) hla hnext with ⟨s2, h1, h2⟩ | ⟨r, s2, h1, h2, h3, h4⟩
        · exact Or.inl ⟨s2, h1, h2⟩
        · exact Or.inr ⟨r, s2, h1, h2, h3, h4⟩

/-- C10. When none of the candidates of an argument is bound (the resolver
fails or yields no address, or a candidate equals an entry of the table or
fails to bind with another errno than `EAFNOSUPPORT` before any bind succeeds,
whatever the candidates after it would do, or every candidate is dropped for
`EAFNOSUPPORT`), `MAC_Arg` ends in an `ARGV_ERR`, and the listen table then
holds exactly the entries it held before the call.  When the set-up of the
argument succeeds the error is the one of the first fatal candidate, and "Got
no socket(s)" when there is none.  The label is taken to fit its buffer, the
default transport to be registered, and a failed bind to report its errno, so
that no assertion fails. -/
theorem MAC_Arg_without_socket_fails (env : Env) (arg : NamedArg) (s : Mgt)
    (hname : (MAC_Arg_name arg.name s.seq).isSome = true)
    (hhttp : arg.subargs = [] → (env.XPORT_Find "http").isSome = true)
    (hnone : ∀ res, env.getaddrinfo arg.endpoint "80" = some res →
      none_bound env s.socks s.nbind res = true) :
    ∃ e s2, MAC_Arg env arg s = Res.argv_err e s2 ∧ s2.socks = s.socks
      ∧ (∀ priv s1, MAC_Arg_setup env arg s = Res.ok priv s1 →
          e = MAC_Arg_no_socket_error env arg s) := by
  have hne := MAC_Arg_setup_ne_assert env arg s hname hhttp
  have hafter := MAC_Arg_setup_after env arg s
  unfold MAC_Arg
  cases hset : MAC_Arg_setup env arg s with
  | assert_fail => exact absurd hset hne
  | argv_err e s1 =>
    rw [hset] at hafter
    refine ⟨e, s1, rfl, hafter.2, ?_⟩
    intro priv s1 h
    cases h
  | ok priv s1 =>
    obtain ⟨hpriv, hsocks, hnbind, -, la, hargs, hend, hlasocks⟩ :=
      MAC_Arg_setup_ok env arg s s1 priv hset
    have hla : s1.listen_args[priv]? = some la := by
      rw [hargs, hpriv]
      exact getElem?_append_cons_at _ _ _ _ rfl
    simp only [VSS_resolver, MAC_Arg_no_socket_error]
    cases hg : env.getaddrinfo arg.endpoint "80" with
    | none =>
      simp only [hla]
      exact ⟨ArgvErr.got_no_sockets arg.endpoint, s1, by simp, hsocks, fun _ _ _ => rfl⟩
    | some res =>
      simp only
      have hnb : none_bound env s1.socks s1.nbind res = true := by
        rw [hsocks, hnbind]
        exact hnone res hg
      rcases resolver_loop_none_bound env priv la res 0 s1 hla hnb with
        ⟨s2, h1, h2⟩ | ⟨r, s2, h1, h2, h3, h4⟩
      · rw [h1]
        refine ⟨_, s2, rfl, h2.trans hsocks, ?_⟩
        intro _ _ _
        rw [hend, hsocks, hnbind]
      · rw [h1]
        simp only [h3, hla, hlasocks, List.isEmpty_nil, Bool.true_or, if_true]
        refine ⟨ArgvErr.got_no_sockets arg.endpoint, s2, rfl, h2.trans hsocks, ?_⟩
        intro _ _ _
        rw [← hsocks, ← hnbind, ← hend, h4, hend]

/-- C10 at four sample arguments: a name that resolves to no address; `:80`
whose bind fails with errno 13; an endpoint whose first candidate fails to
bind with errno 13 while the bind of its second candidate would succeed; and
an endpoint both candidates of which are dropped for `EAFNOSUPPORT`. -/
theorem MAC_Arg_without_socket_fails_witness :
    (∃ s2, MAC_Arg sampleEnv { name := none, endpoint := "nowhere", subargs := [] } sampleTable
        = Res.argv_err (ArgvErr.got_no_sockets "nowhere") s2 ∧ s2.socks = sampleTable.socks)
    ∧ (∃ s2, MAC_Arg sampleEnv { name := none, endpoint := ":80", subargs := [] } Mgt.init
        = Res.argv_err (ArgvErr.could_not_get_socket ":80" 13) s2 ∧ s2.socks = Mgt.init.socks)
    ∧ (none_bound mixedEnv sampleTable.socks sampleTable.nbind
          [{ family := 2, host := 1, port := 80 }, { family := 2, host := 1, port := 8080 }] = true
        ∧ 0 ≤ (mixedEnv.VTCP_bind (sampleTable.nbind + 1)
            { family := 2, host := 1, port := 8080 }).sock
        ∧ ∃ s2, MAC_Arg mixedEnv { name := none, endpoint := "both", subargs := [] } sampleTable
            = Res.argv_err (ArgvErr.could_not_get_socket "both" 13) s2
          ∧ s2.socks = sampleTable.socks)
    ∧ (∃ s2, MAC_Arg mixedEnv { name := none, endpoint := "unsupported", subargs := [] }
            sampleTable
          = Res.argv_err (ArgvErr.got_no_sockets "unsupported") s2
        ∧ s2.socks = sampleTable.socks) := by
  have h1 := MAC_Arg_without_socket_fails sampleEnv
    { name := none, endpoint := "nowhere", subargs := [] } sampleTable
    (by decide) (by decide) (by decide)
  have h2 := MAC_Arg_without_socket_fails sampleEnv
    { name := none, endpoint := ":80", subargs := [] } Mgt.init
    (by decide) (by decide) (by decide)
  have h3 := MAC_Arg_without_socket_fails mixedEnv
    { name := none, endpoint := "both", subargs := [] } sampleTable
    (by decide) (by decide) (by decide)
  have h4 := MAC_Arg_without_socket_fails mixedEnv
    { name := none, endpoint := "unsupported", subargs := [] } sampleTable
    (by decide) (by decide) (by decide)
  obtain ⟨e1, s1, he1, hs1, hc1⟩ := h1
  obtain ⟨e2, s2, he2, hs2, hc2⟩ := h2
  obtain ⟨e3, s3, he3, hs3, hc3⟩ := h3
  obtain ⟨e4, s4, he4, hs4, hc4⟩ := h4
  refine ⟨⟨s1, ?_, hs1⟩, ⟨s2, ?_, hs2⟩, ⟨by decide, by decide, s3, ?_, hs3⟩, ⟨s4, ?_, hs4⟩⟩
  · rw [he1, hc1 _ _ rfl]
    rfl
  · rw [he2, hc2 _ _ rfl]
    rfl
  · rw [he3, hc3 _ _ rfl]
    rfl
  · rw [he4, hc4 _ _ rfl]
    rfl

/-! ## The daemonization handshake -/

/-- C4. When the detached side calls `mgt_eric_im_done` with a valid
descriptor and status 0, the word it writes is `ERIC_MAGIC`, and the waiting
side of `mgt_eric`, reading that 4-byte word, exits with status 0. -/
theorem mgt_eric_success (eric_fd : Int) (eric_pipes : Int × Int) (h : 0 ≤ eric_fd) :
    written (mgt_eric_im_done eric_fd 0) = some ERIC_MAGIC
      ∧ Event.write eric_fd ERIC_MAGIC ∈ mgt_eric_im_done eric_fd 0
      ∧ mgt_eric ForkSide.parent eric_pipes (pipe_read (written (mgt_eric_im_done eric_fd 0)))
          = Proc.exit 0 := by
  have hfd : ¬ eric_fd < 0 := not_lt.mpr h
  have hw : written (mgt_eric_im_done eric_fd 0) = some ERIC_MAGIC := by
    simp [mgt_eric_im_done, hfd, written]
  refine ⟨hw, ?_, ?_⟩
  · simp [mgt_eric_im_done, hfd]
  · rw [hw]
    simp [pipe_read, mgt_eric]

/-- C4 with the pipe on descriptors 3 and 4. -/
theorem mgt_eric_success_witness :
    (0 : Int) ≤ 4
      ∧ written (mgt_eric_im_done 4 0) = some ERIC_MAGIC
      ∧ Event.write 4 ERIC_MAGIC ∈ mgt_eric_im_done 4 0
      ∧ mgt_eric ForkSide.parent (3, 4) (pipe_read (written (mgt_eric_im_done 4 0)))
          = Proc.exit 0 :=
  ⟨by decide, mgt_eric_success 4 (3, 4) (by decide)⟩

/-- C5 as stated fails, at two nonzero 32-bit statuses.  At `u = ERIC_MAGIC`
the word written is the success sentinel, and the waiting side calls `exit(0)`.
At `u = 256` the waiting side calls `exit(256)`, of which the system keeps the
low 8 bits: it exits with status 0, not 256. -/
theorem mgt_eric_status_not_propagated :
    (ERIC_MAGIC ≠ 0 ∧ ERIC_MAGIC < 2 ^ 32
      ∧ mgt_eric ForkSide.parent (3, 4) (pipe_read (written (mgt_eric_im_done 4 ERIC_MAGIC)))
          = Proc.exit 0
      ∧ (mgt_eric ForkSide.parent (3, 4)
            (pipe_read (written (mgt_eric_im_done 4 ERIC_MAGIC)))).status = some 0
      ∧ (some 0 : Option Int) ≠ some (ERIC_MAGIC : Int))
    ∧ ((256 : Nat) ≠ 0 ∧ 256 < 2 ^ 32
      ∧ written (mgt_eric_im_done 4 256) = some 256
      ∧ mgt_eric ForkSide.parent (3, 4) (pipe_read (written (mgt_eric_im_done 4 256)))
          = Proc.exit 256
      ∧ (mgt_eric ForkSide.parent (3, 4)
            (pipe_read (written (mgt_eric_im_done 4 256)))).status = some 0
      ∧ (some 0 : Option Int) ≠ some 256) := by
  decide

/-- C5, amended. For every nonzero 32-bit status `u` other than `ERIC_MAGIC`
passed to `mgt_eric_im_done` with a valid descriptor, the word written is `u`,
and the waiting side of `mgt_eric`, reading it, calls `exit(u)` (`u` converted
to `int`) and exits with the status `u mod 256`, the low 8 bits of `u`: with
`u` itself for every `u` below 256. -/
theorem mgt_eric_status_propagates (eric_fd : Int) (eric_pipes : Int × Int) (u : Nat)
    (hfd : 0 ≤ eric_fd) (h0 : u ≠ 0) (hm : u ≠ ERIC_MAGIC) (h32 : u < 2 ^ 32) :
    written (mgt_eric_im_done eric_fd u) = some u
      ∧ mgt_eric ForkSide.parent eric_pipes (pipe_read (written (mgt_eric_im_done eric_fd u)))
          = Proc.exit (int_of_unsigned u)
      ∧ (u < 2 ^ 31 → int_of_unsigned u = (u : Int))
      ∧ (mgt_eric ForkSide.parent eric_pipes
            (pipe_read (written (mgt_eric_im_done eric_fd u)))).status
          = some ((u % 256 : Nat) : Int)
      ∧ (u < 256 →
          (mgt_eric ForkSide.parent eric_pipes
            (pipe_read (written (mgt_eric_im_done eric_fd u)))).status = some (u : Int)) := by
  have hneg : ¬ eric_fd < 0 := not_lt.mpr hfd
  have hw : written (mgt_eric_im_done eric_fd u) = some u := by
    simp [mgt_eric_im_done, hneg, written, h0]
  have hexit : mgt_eric ForkSide.parent eric_pipes
      (pipe_read (written (mgt_eric_im_done eric_fd u))) = Proc.exit (int_of_unsigned u) := by
    rw [hw]
    simp [pipe_read, mgt_eric, hm, h0]
  have hmod : u % 2 ^ 32 = u := Nat.mod_eq_of_lt h32
  have hstatus : wait_status (int_of_unsigned u) = ((u % 256 : Nat) : Int) := by
    unfold wait_status int_of_unsigned
    rw [hmod]
    split <;> omega
  refine ⟨hw, hexit, ?_, ?_, ?_⟩
  · intro h31
    simp only [int_of_unsigned, hmod, if_pos h31]
  · rw [hexit]
    simp only [Proc.status, hstatus]
  · intro h8
    rw [hexit]
    simp only [Proc.status, hstatus, Nat.mod_eq_of_lt h8]

/-- C5, amended, at `u = 7`: the waiting side exits with status 7. -/
theorem mgt_eric_status_propagates_witness :
    (0 : Int) ≤ 4 ∧ (7 : Nat) ≠ 0 ∧ 7 ≠ ERIC_MAGIC ∧ 7 < 2 ^ 32
      ∧ mgt_eric ForkSide.parent (3, 4) (pipe_read (written (mgt_eric_im_done 4 7)))
          = Proc.exit 7
      ∧ (mgt_eric ForkSide.parent (3, 4)
            (pipe_read (written (mgt_eric_im_done 4 7)))).status = some 7 :=
  ⟨by decide, by decide, by decide, by decide,
    ((mgt_eric_status_propagates 4 (3, 4) 7 (by decide) (by decide) (by decide)
      (by decide)).2.1).trans (by decide),
    (mgt_eric_status_propagates 4 (3, 4) 7 (by decide) (by decide) (by decide)
      (by decide)).2.2.2.2 (by decide)⟩

/-- C6 as stated fails at the 4-byte word 256, which is what the detached side
writes for the status 256: the word is not the success sentinel, the waiting
side calls `exit(256)`, and it exits with status 0. -/
theorem mgt_eric_zero_status_without_sentinel :
    (256 : Nat) < 2 ^ 32 ∧ (256 : Nat) ≠ ERIC_MAGIC
      ∧ pipe_read (written (mgt_eric_im_done 4 256)) = (4, 256)
      ∧ mgt_eric ForkSide.parent (3, 4) (4, 256) = Proc.exit 256
      ∧ (mgt_eric ForkSide.parent (3, 4) (4, 256)).status = some 0 := by
  decide

/-- C6, amended. Whenever the read of the waiting side of `mgt_eric` does not
return exactly 4 (end of file, a short read, an error), the waiting side calls
`exit(-1)` and exits with the status 255, which is not 0.  For a 32-bit word
it calls `exit(0)` only when it read exactly 4 bytes equal to `ERIC_MAGIC`, and
it exits with status 0 exactly when it read 4 bytes that are `ERIC_MAGIC` or a
nonzero word whose low 8 bits are zero. -/
theorem mgt_eric_generic_failure (eric_pipes : Int × Int) (sz : Int) (u : Nat)
    (h32 : u < 2 ^ 32) :
    (sz ≠ 4 → mgt_eric ForkSide.parent eric_pipes (sz, u) = Proc.exit (-1)
        ∧ (mgt_eric ForkSide.parent eric_pipes (sz, u)).status = some 255)
      ∧ (Proc.exit (-1) : Proc Int) ≠ Proc.exit 0
      ∧ (some 255 : Option Int) ≠ some 0
      ∧ (mgt_eric ForkSide.parent eric_pipes (sz, u) = Proc.exit 0
          ↔ sz = 4 ∧ u = ERIC_MAGIC)
      ∧ ((mgt_eric ForkSide.parent eric_pipes (sz, u)).status = some 0
          ↔ sz = 4 ∧ (u = ERIC_MAGIC ∨ (u ≠ 0 ∧ u % 256 = 0))) := by
  have hmod : u % 2 ^ 32 = u := Nat.mod_eq_of_lt h32
  have hmagic : ERIC_MAGIC % 256 ≠ 0 := by decide
  have hstatus : wait_status (int_of_unsigned u) = ((u % 256 : Nat) : Int) := by
    unfold wait_status int_of_unsigned
    rw [hmod]
    split <;> omega
  have hcases : (sz = 4 ∧ u = ERIC_MAGIC
        ∧ mgt_eric ForkSide.parent eric_pipes (sz, u) = Proc.exit 0)
      ∨ (sz = 4 ∧ u ≠ ERIC_MAGIC ∧ u ≠ 0
        ∧ mgt_eric ForkSide.parent eric_pipes (sz, u) = Proc.exit (int_of_unsigned u))
      ∨ ((sz ≠ 4 ∨ u = 0) ∧ u ≠ ERIC_MAGIC ∨ sz ≠ 4)
        ∧ mgt_eric ForkSide.parent eric_pipes (sz, u) = Proc.exit (-1) := by
    by_cases h1 : sz = 4 ∧ u = ERIC_MAGIC
    · left
      exact ⟨h1.1, h1.2, by simp [mgt_eric, h1]⟩
    · by_cases h2 : sz = 4 ∧ u ≠ 0
      · right; left
        refine ⟨h2.1, fun hu => h1 ⟨h2.1, hu⟩, h2.2, ?_⟩
        simp only [mgt_eric, if_neg h1, if_pos h2]
      · right; right
        refine ⟨?_, ?_⟩
        · by_cases hsz : sz = 4
          · left
            refine ⟨Or.inr ?_, fun hu => h1 ⟨hsz, hu⟩⟩
            by_contra hu
            exact h2 ⟨hsz, hu⟩
          · right
            exact hsz
        · simp only [mgt_eric, if_neg h1, if_neg h2]
  have hneg1 : wait_status (-1) = 255 := by decide
  refine ⟨?_, by decide, by decide, ?_, ?_⟩
  · intro hsz
    have hx : mgt_eric ForkSide.parent eric_pipes (sz, u) = Proc.exit (-1) := by
      simp [mgt_eric, hsz]
    exact ⟨hx, by rw [hx]; simp only [Proc.status, hneg1]⟩
  · constructor
    · intro h
      rcases hcases with ⟨h1, h2, -⟩ | ⟨-, -, hu, hx⟩ | ⟨-, hx⟩
      · exact ⟨h1, h2⟩
      · exfalso
        rw [hx] at h
        simp only [Proc.exit.injEq] at h
        unfold int_of_unsigned at h
        rw [hmod] at h
        split at h <;> omega
      · rw [hx] at h
        simp at h
    · intro h
      simp [mgt_eric, h]
  · constructor
    · intro h
      rcases hcases with ⟨h1, h2, -⟩ | ⟨hsz, -, hu, hx⟩ | ⟨-, hx⟩
      · exact ⟨h1, Or.inl h2⟩
      · rw [hx] at h
        simp only [Proc.status, hstatus, Option.some.injEq] at h
        exact ⟨hsz, Or.inr ⟨hu, by exact_mod_cast h⟩⟩
      · rw [hx] at h
        simp only [Proc.status, hneg1, Option.some.injEq] at h
        omega
    · rintro ⟨hsz, hu | ⟨hu0, hu8⟩⟩
      · have hx : mgt_eric ForkSide.parent eric_pipes (sz, u) = Proc.exit 0 := by
          simp [mgt_eric, hsz, hu]
        rw [hx]
        decide
      · rcases hcases with ⟨-, -, hx⟩ | ⟨-, -, -, hx⟩ | ⟨hbad, -⟩
        · rw [hx]
          decide
        · rw [hx]
          simp only [Proc.status, hstatus, hu8]
          rfl
        · exfalso
          rcases hbad with ⟨h1 | h1, -⟩ | h1
          · exact h1 hsz
          · exact hu0 h1
          · exact h1 hsz

/-- C6, amended, at end of file: the detached side died without writing. -/
theorem mgt_eric_generic_failure_witness :
    (0 : Nat) < 2 ^ 32
      ∧ mgt_eric ForkSide.parent (3, 4) (pipe_read none) = Proc.exit (-1)
      ∧ (mgt_eric ForkSide.parent (3, 4) (pipe_read none)).status = some 255
      ∧ (some 255 : Option Int) ≠ some 0 :=
  ⟨by decide,
    ((mgt_eric_generic_failure (3, 4) 0 0 (by decide)).1 (by decide)).1,
    ((mgt_eric_generic_failure (3, 4) 0 0 (by decide)).1 (by decide)).2,
    (mgt_eric_generic_failure (3, 4) 0 0 (by decide)).2.2.1⟩


/-! ## Configuration errors and daemonization -/

/-- C13. For every candidate that `mac_callback` binds successfully, the call
returns 0 with one new entry at the tail of the table, holding the descriptor
of the bind.  If the candidate's port is 0, the entry's address is the local
address the system reports for the bound socket and its endpoint display is
`<addr>:<port>` as the system prints them for that socket; if the port is not
0, the entry's address is the candidate address and its endpoint display is
the endpoint text of the argument. -/
theorem mac_callback_bound_entry (env : Env) (priv : Nat) (sa : suckaddr) (s : Mgt)
    (la : listen_arg)
    (hla : s.listen_args[priv]? = some la)
    (hno : ∀ ls ∈ s.socks, VSA_Compare sa ls.addr ≠ 0)
    (hfd : 0 ≤ (env.VTCP_bind s.nbind sa).sock) :
    ∃ s2 e, mac_callback env priv sa s = Res.ok 0 s2
      ∧ s2.socks = s.socks ++ [e]
      ∧ e.sock = (env.VTCP_bind s.nbind sa).sock
      ∧ (VSA_Port sa = 0 →
          e.addr = env.VTCP_my_suckaddr (s.nbind + 1) e.sock
          ∧ e.endpoint = (env.VTCP_myname (s.nbind + 1) e.sock).1 ++ ":"
              ++ (env.VTCP_myname (s.nbind + 1) e.sock).2)
      ∧ (VSA_Port sa ≠ 0 → e.addr = sa ∧ e.endpoint = la.endpoint) := by
  have hcb := mac_callback_eq env priv sa s la hla hno
  rw [if_neg (not_lt.mpr hfd)] at hcb
  refine ⟨callback_bound env priv la sa s, bound_entry env la sa s.nbind, hcb, rfl, ?_, ?_, ?_⟩
  · unfold bound_entry
    simp only
    split <;> rfl
  · intro hp
    simp only [bound_entry, if_pos hp, and_self]
  · intro hp
    simp only [bound_entry, if_neg hp, and_self]

/-- C13 at the sample state: a candidate with port 0 is entered under the
reported port 40006, a candidate with port 9090 under the argument's text. -/
theorem mac_callback_bound_entry_witness :
    (∃ s2 e, mac_callback sampleEnv 1 { family := 2, host := 1, port := 0 } sampleResolving
        = Res.ok 0 s2
      ∧ s2.socks = sampleResolving.socks ++ [e]
      ∧ e.addr = { family := 2, host := 0, port := 40006 }
      ∧ e.endpoint = "0.0.0.0:40006")
    ∧ (∃ s2 e, mac_callback sampleEnv 1 { family := 2, host := 1, port := 9090 } sampleResolving
        = Res.ok 0 s2
      ∧ s2.socks = sampleResolving.socks ++ [e]
      ∧ e.addr = { family := 2, host := 1, port := 9090 }
      ∧ e.endpoint = "localhost:8080") :=
  have h0 := mac_callback_bound_entry sampleEnv 1 { family := 2, host := 1, port := 0 }
    sampleResolving
    { endpoint := "localhost:8080", name := "a1", transport := some { name := "http" },
      socks := [] }
    rfl (by decide) (by decide)
  have h1 := mac_callback_bound_entry sampleEnv 1 { family := 2, host := 1, port := 9090 }
    sampleResolving
    { endpoint := "localhost:8080", name := "a1", transport := some { name := "http" },
      socks := [] }
    rfl (by decide) (by decide)
  ⟨by
    obtain ⟨s2, e, hr, hs, hfd, hp0, -⟩ := h0
    obtain ⟨ha, he⟩ := hp0 rfl
    refine ⟨s2, e, hr, hs, ?_, ?_⟩
    · rw [ha, hfd]; decide
    · rw [he, hfd]; decide,
   by
    obtain ⟨s2, e, hr, hs, -, -, hp1⟩ := h1
    obtain ⟨ha, he⟩ := hp1 (by decide)
    exact ⟨s2, e, hr, hs, ha, he⟩⟩

/-- C14. For every candidate whose bind fails in `mac_callback` (with its
errno): if the error is `EAFNOSUPPORT`, the call returns 0, so that the
resolver goes on, and the listen table and the queues of the arguments are
unchanged; for every other error code the call ends in the `ARGV_ERR` that
names the argument's endpoint and the error, whatever sockets the argument
has already got. -/
theorem mac_callback_bind_failure (env : Env) (priv : Nat) (sa : suckaddr) (s : Mgt)
    (la : listen_arg)
    (hla : s.listen_args[priv]? = some la)
    (hno : ∀ ls ∈ s.socks, VSA_Compare sa ls.addr ≠ 0)
    (hfail : (env.VTCP_bind s.nbind sa).sock < 0)
    (herrno : (env.VTCP_bind s.nbind sa).errno ≠ 0) :
    ((env.VTCP_bind s.nbind sa).errno = env.EAFNOSUPPORT →
        ∃ s2, mac_callback env priv sa s = Res.ok 0 s2
          ∧ s2.socks = s.socks ∧ s2.listen_args = s.listen_args)
    ∧ ((env.VTCP_bind s.nbind sa).errno ≠ env.EAFNOSUPPORT →
        ∃ s2, mac_callback env priv sa s
            = Res.argv_err
                (ArgvErr.could_not_get_socket la.endpoint (env.VTCP_bind s.nbind sa).errno) s2
          ∧ s2.socks = s.socks ∧ s2.listen_args = s.listen_args) := by
  have hcb := mac_callback_eq env priv sa s la hla hno
  rw [if_pos hfail, if_neg herrno] at hcb
  refine ⟨?_, ?_⟩
  · intro hfam
    rw [if_neg (not_not.mpr hfam)] at hcb
    exact ⟨callback_failed s sa, hcb, rfl, rfl⟩
  · intro hfam
    rw [if_pos hfam] at hcb
    exact ⟨callback_failed s sa, hcb, rfl, rfl⟩

/-- C14 at the sample state in which the argument has already got a socket: a
candidate of family 10 is dropped, a candidate with port 80 is fatal. -/
theorem mac_callback_bind_failure_witness :
    (∃ s2, mac_callback dualStackEnv 1 { family := 10, host := 1, port := 8080 }
        sampleHalfResolved = Res.ok 0 s2
      ∧ s2.socks = sampleHalfResolved.socks
      ∧ s2.listen_args = sampleHalfResolved.listen_args)
    ∧ (∃ s2, mac_callback dualStackEnv 1 { family := 2, host := 1, port := 80 }
        sampleHalfResolved
          = Res.argv_err (ArgvErr.could_not_get_socket "localhost:8080" 13) s2
      ∧ s2.socks = sampleHalfResolved.socks
      ∧ s2.listen_args = sampleHalfResolved.listen_args) :=
  ⟨(mac_callback_bind_failure dualStackEnv 1 { family := 10, host := 1, port := 8080 }
      sampleHalfResolved
      { endpoint := "localhost:8080", name := "a1", transport := some { name := "http" },
        socks := [1] }
      rfl (by decide) (by decide) (by decide)).1 (by decide),
   (mac_callback_bind_failure dualStackEnv 1 { family := 2, host := 1, port := 80 }
      sampleHalfResolved
      { endpoint := "localhost:8080", name := "a1", transport := some { name := "http" },
        socks := [1] }
      rfl (by decide) (by decide) (by decide)).2 (by decide)⟩

/-! ## One argument: what is appended -/

theorem bound_candidates_congr (env : Env) (la la2 : listen_arg)
    (he : la2.endpoint = la.endpoint) (hn : la2.name = la.name)
    (ht : la2.transport = la.transport) :
    ∀ (res : List suckaddr) (n : Nat),
      bound_candidates env la2 n res = bound_candidates env la n res := by
  intro res
  induction res with
  | nil => intro n; rfl
  | cons sa rest ih =>
    intro n
    simp only [bound_candidates, bound_entry, he, hn, ht, ih]

theorem map_getElem?_range' {α : Type} : ∀ (m l : List α),
    (List.range' l.length m.length).map (fun i => (l ++ m)[i]?) = m.map some := by
  intro m
  induction m with
  | nil => intro l; rfl
  | cons x rest ih =>
    intro l
    have h := ih (l ++ [x])
    simp only [List.length_append, List.length_singleton, List.append_assoc,
      List.singleton_append] at h
    simp only [List.length_cons, List.range'_succ, List.map_cons, h]
    rw [getElem?_append_cons_at l rest x l.length rfl]

/-- When the loop of the resolver over `mac_callback` returns, the table has
grown by the entries of the successfully bound candidates, in their order, and
the queue of the argument by their positions. -/
theorem resolver_loop_appends (env : Env) (priv : Nat) :
    ∀ (res : List suckaddr) (ret r : Int) (s s2 : Mgt) (la : listen_arg),
      s.listen_args[priv]? = some la →
      resolver_loop (mac_callback env priv) res ret s = Res.ok r s2 →
      s2.socks = s.socks ++ bound_candidates env la s.nbind res
      ∧ s2.listen_args[priv]? = some { la with
          socks := la.socks
            ++ List.range' s.socks.length (bound_candidates env la s.nbind res).length } := by
  intro res
  induction res with
  | nil =>
    intro ret r s s2 la hla h
    simp only [resolver_loop, Res.ok.injEq] at h
    obtain ⟨-, hs⟩ := h
    subst hs
    simp [bound_candidates, hla]
  | cons sa rest ih =>
    intro ret r s s2 la hla h
    simp only [resolver_loop] at h
    cases hc : mac_callback env priv sa s with
    | assert_fail => simp [hc] at h
    | argv_err e s1 => simp [hc] at h
    | ok r1 s1 =>
      obtain ⟨hr1, -, la0, hla0, hcase⟩ := mac_callback_ok env priv sa s s1 r1 hc
      have hsame : la0 = la := by
        rw [hla] at hla0
        exact (Option.some.inj hla0).symm
      subst hsame
      subst hr1
      simp only [hc, ne_eq, not_true_eq_false, if_false] at h
      rcases hcase with ⟨hneg, -, -, hs1⟩ | ⟨hpos, hs1⟩
      · subst hs1
        have := ih 0 r (callback_failed s sa) s2 la0 hla h
        simpa [bound_candidates, hneg, callback_failed] using this
      · subst hs1
        have hlt : priv < s.listen_args.length := by
          obtain ⟨hlt, -⟩ := List.getElem?_eq_some.mp hla
          exact hlt
        have hla1 : (callback_bound env priv la0 sa s).listen_args[priv]?
            = some { la0 with socks := la0.socks ++ [s.socks.length] } := by
          simp only [callback_bound]
          exact List.getElem?_set_self hlt
        have := ih 0 r (callback_bound env priv la0 sa s) s2 _ hla1 h
        rw [bound_candidates_congr env la0
          { la0 with socks := la0.socks ++ [s.socks.length] } rfl rfl rfl] at this
        obtain ⟨h1, h2⟩ := this
        have hnot : ¬ (env.VTCP_bind s.nbind sa).sock < 0 := not_lt.mpr hpos
        refine ⟨?_, ?_⟩
        · rw [h1]
          simp [bound_candidates, hnot, callback_bound]
        · rw [h2]
          simp [bound_candidates, hnot, callback_bound, List.range'_succ]

/-- C11. After every `MAC_Arg` call that returns, the listen table is the table
before the call followed by the sockets of the argument's own queue; these
are exactly the entries of the successfully bound candidates, in the order in
which the resolver delivered the candidates, and there is at least one.  The
entries that were in the table stand where they stood. -/
theorem MAC_Arg_appends_bound_candidates (env : Env) (arg : NamedArg) (s s2 : Mgt)
    (h : MAC_Arg env arg s = Res.ok () s2) :
    ∃ la res, env.getaddrinfo arg.endpoint "80" = some res
      ∧ s2.listen_args[s.listen_args.length]? = some la
      ∧ la.endpoint = arg.endpoint
      ∧ s2.socks = s.socks ++ bound_candidates env la s.nbind res
      ∧ la.socks = List.range' s.socks.length (bound_candidates env la s.nbind res).length
      ∧ la.socks.map (fun i => s2.socks[i]?) = (bound_candidates env la s.nbind res).map some
      ∧ bound_candidates env la s.nbind res ≠ [] := by
  unfold MAC_Arg at h
  cases hset : MAC_Arg_setup env arg s with
  | assert_fail => simp [hset] at h
  | argv_err e s1 => simp [hset] at h
  | ok priv s1 =>
    obtain ⟨hpriv, hsocks, hnbind, -, la0, hargs, hend, hlasocks⟩ :=
      MAC_Arg_setup_ok env arg s s1 priv hset
    have hla : s1.listen_args[priv]? = some la0 := by
      rw [hargs, hpriv]
      exact getElem?_append_cons_at _ _ _ _ rfl
    simp only [hset, VSS_resolver] at h
    cases hg : env.getaddrinfo arg.endpoint "80" with
    | none =>
      simp only [hg, hla] at h
      simp at h
    | some res =>
      simp only [hg] at h
      cases hl : resolver_loop (mac_callback env priv) res 0 s1 with
      | assert_fail => simp [hl] at h
      | argv_err e s3 => simp [hl] at h
      | ok error s3 =>
        obtain ⟨h1, h2⟩ := resolver_loop_appends env priv res 0 error s1 s3 la0 hla hl
        rw [hsocks, hnbind] at h1 h2
        have hcg := bound_candidates_congr env la0
          { la0 with socks := la0.socks
              ++ List.range' s.socks.length (bound_candidates env la0 s.nbind res).length }
          rfl rfl rfl res s.nbind
        simp only [hl, h2] at h
        split at h
        · cases h
        · rename_i hcond
          cases h
          simp only [Bool.or_eq_true, decide_eq_true_eq, not_or, hlasocks,
            List.nil_append] at hcond
          refine ⟨{ la0 with socks := (la0.socks ++ List.range' s.socks.length (bound_candidates env la0 s.nbind res).length) },
            res, rfl, hpriv ▸ h2, hend, ?_, ?_, ?_, ?_⟩
          · rw [hcg]
            exact h1
          · rw [hcg]
            simp [hlasocks]
          · rw [hcg]
            simp only [hlasocks, List.nil_append]
            rw [h1]
            exact map_getElem?_range' _ _
          · rw [hcg]
            intro hnil
            apply hcond.1
            simp [hnil]

/-- C11 at a sample call: `-a localhost:8080` on the sample table, where the
candidate of family 10 is dropped and the one of family 2 is bound. -/
theorem MAC_Arg_appends_bound_candidates_witness :
    ∃ s2, MAC_Arg dualStackEnv localhost8080 sampleTable = Res.ok () s2
      ∧ ∃ la res, dualStackEnv.getaddrinfo localhost8080.endpoint "80" = some res
        ∧ s2.listen_args[sampleTable.listen_args.length]? = some la
        ∧ la.endpoint = localhost8080.endpoint
        ∧ s2.socks = sampleTable.socks ++ bound_candidates dualStackEnv la sampleTable.nbind res
        ∧ la.socks = List.range' sampleTable.socks.length
            (bound_candidates dualStackEnv la sampleTable.nbind res).length
        ∧ la.socks.map (fun i => s2.socks[i]?)
            = (bound_candidates dualStackEnv la sampleTable.nbind res).map some
        ∧ bound_candidates dualStackEnv la sampleTable.nbind res ≠ [] :=
  ⟨_, rfl, MAC_Arg_appends_bound_candidates dualStackEnv localhost8080 sampleTable _ rfl⟩

/-! ## The jail bracket around every bind -/

theorem bracket_scan_append (a : List Event) : ∀ (p : Phase) (b : List Event),
    bracket_scan p (a ++ b) = (bracket_scan p a).bind (fun q => bracket_scan q b) := by
  induction a with
  | nil => intro p b; rfl
  | cons e rest ih =>
    intro p b
    simp only [List.cons_append, bracket_scan]
    cases bracket_step p e with
    | none => rfl
    | some q => exact ih q b

theorem bracket_step_mode (p q : Phase) (e : Event) (h : bracket_step p e = some q) :
    jail_mode p.mode [e] = q.mode := by
  cases e with
  | VJ_master mode =>
    cases mode <;> cases p <;> simp [bracket_step] at h <;> (subst h; rfl)
  | MCH_Fd_Inherit fd what =>
    cases what <;> cases p <;> simp [bracket_step] at h <;> (subst h; rfl)
  | closefd fd => cases p <;> simp [bracket_step] at h <;> (subst h; rfl)
  | VTCP_bind addr =>
    cases p <;> simp [bracket_step] at h
    subst h
    rfl
  | MGT_Complain endpoint err =>
    cases p <;> simp [bracket_step] at h
    subst h
    rfl
  | fork =>
    cases p <;> simp [bracket_step] at h
    subst h
    rfl
  | devnull target =>
    cases p <;> simp [bracket_step] at h
    subst h
    rfl
  | write fd word =>
    cases p <;> simp [bracket_step] at h
    subst h
    rfl

theorem jail_mode_cons (m : JailMode) (e : Event) (rest : List Event) :
    jail_mode m (e :: rest) = jail_mode (jail_mode m [e]) rest := by
  cases e <;> rfl

/-- A trace that keeps the bracket discipline leaves the jail mode of its last
phase. -/
theorem bracket_scan_mode (tr : List Event) : ∀ (p q : Phase),
    bracket_scan p tr = some q → jail_mode p.mode tr = q.mode := by
  induction tr with
  | nil =>
    intro p q h
    simp only [bracket_scan, Option.some.injEq] at h
    subst h
    rfl
  | cons e rest ih =>
    intro p q h
    simp only [bracket_scan] at h
    cases hs : bracket_step p e with
    | none => simp [hs] at h
    | some r =>
      simp only [hs] at h
      rw [jail_mode_cons, bracket_step_mode p r e hs]
      exact ih r q h

/-- Inside an open bracket, the calls of `mac_opensocket` are the release of
the old descriptor, the bind, and the recording of the new descriptor. -/
theorem mac_opensocket_scan (env : Env) (ls : listen_sock) (s : Mgt) :
    (mac_opensocket env ls s).holds (fun s2 => ∃ added, s2.trace = s.trace ++ added
      ∧ bracket_scan Phase.entered added = some Phase.bound) := by
  by_cases hs : ls.sock > 0 <;> by_cases ho : (env.VTCP_bind s.nbind ls.addr).sock < 0
    <;> by_cases he : (env.VTCP_bind s.nbind ls.addr).errno = 0
  · simp only [mac_opensocket, Mgt.log, if_pos hs, if_pos ho, if_pos he, Res.holds]
  · simp only [mac_opensocket, Mgt.log, if_pos hs, if_pos ho, if_neg he, Res.holds]
    exact ⟨[Event.MCH_Fd_Inherit ls.sock none, Event.closefd ls.sock, Event.VTCP_bind ls.addr],
      by simp, rfl⟩
  · simp only [mac_opensocket, Mgt.log, if_pos hs, if_neg ho, Res.holds]
    exact ⟨[Event.MCH_Fd_Inherit ls.sock none, Event.closefd ls.sock, Event.VTCP_bind ls.addr,
      Event.MCH_Fd_Inherit (env.VTCP_bind s.nbind ls.addr).sock (some "sock")], by simp, rfl⟩
  · simp only [mac_opensocket, Mgt.log, if_pos hs, if_neg ho, Res.holds]
    exact ⟨[Event.MCH_Fd_Inherit ls.sock none, Event.closefd ls.sock, Event.VTCP_bind ls.addr,
      Event.MCH_Fd_Inherit (env.VTCP_bind s.nbind ls.addr).sock (some "sock")], by simp, rfl⟩
  · simp only [mac_opensocket, Mgt.log, if_neg hs, if_pos ho, if_pos he, Res.holds]
  · simp only [mac_opensocket, Mgt.log, if_neg hs, if_pos ho, if_neg he, Res.holds]
    exact ⟨[Event.VTCP_bind ls.addr], by simp, rfl⟩
  · simp only [mac_opensocket, Mgt.log, if_neg hs, if_neg ho, Res.holds]
    exact ⟨[Event.VTCP_bind ls.addr,
      Event.MCH_Fd_Inherit (env.VTCP_bind s.nbind ls.addr).sock (some "sock")], by simp, rfl⟩
  · simp only [mac_opensocket, Mgt.log, if_neg hs, if_neg ho, Res.holds]
    exact ⟨[Event.VTCP_bind ls.addr,
      Event.MCH_Fd_Inherit (env.VTCP_bind s.nbind ls.addr).sock (some "sock")], by simp, rfl⟩

/-- The calls of the loop of `MAC_reopen_sockets` keep the bracket discipline,
whenever the loop ends. -/
theorem reopen_loop_scan (env : Env) : ∀ (t : List listen_sock) (fail : Int) (s : Mgt),
    (reopen_loop env t fail s).holds (fun s2 => ∃ added, s2.trace = s.trace ++ added
      ∧ bracket_scan Phase.low added = some Phase.low) := by
  intro t
  induction t with
  | nil =>
    intro fail s
    exact ⟨[], by simp, rfl⟩
  | cons ls rest ih =>
    intro fail s
    have h1 := mac_opensocket_scan env ls (s.log [Event.VJ_master JailMode.JAIL_MASTER_PRIVPORT])
    rcases mac_opensocket_cases env ls (s.log [Event.VJ_master JailMode.JAIL_MASTER_PRIVPORT])
      with ho | ⟨err, s1, ho⟩
    · simp only [reopen_loop, ho, Res.holds]
    · rw [ho] at h1
      obtain ⟨add1, ht1, hscan1⟩ := h1
      have hcombine : ∀ (tail : List Event) (s4 : Mgt) (add2 : List Event),
          bracket_scan Phase.low tail = some Phase.low →
          s4.trace = s1.trace ++ [Event.VJ_master JailMode.JAIL_MASTER_LOW] ++ tail ++ add2 →
          bracket_scan Phase.low add2 = some Phase.low →
          ∃ added, s4.trace = s.trace ++ added
            ∧ bracket_scan Phase.low added = some Phase.low := by
        intro tail s4 add2 htail ht4 hscan2
        refine ⟨Event.VJ_master JailMode.JAIL_MASTER_PRIVPORT
          :: (add1 ++ (Event.VJ_master JailMode.JAIL_MASTER_LOW :: (tail ++ add2))), ?_, ?_⟩
        · rw [ht4, ht1]
          simp [Mgt.log]
        · simp only [bracket_scan, bracket_step]
          rw [bracket_scan_append, hscan1]
          simp only [Option.bind, bracket_scan, bracket_step]
          rw [bracket_scan_append, htail]
          exact hscan2
      by_cases hz : err = 0
      · have h2 := ih fail (s1.log [Event.VJ_master JailMode.JAIL_MASTER_LOW])
        simp only [reopen_loop, ho, hz, if_true]
        cases hl : reopen_loop env rest fail (s1.log [Event.VJ_master JailMode.JAIL_MASTER_LOW]) with
        | assert_fail => trivial
        | argv_err e s4 =>
          rw [hl] at h2
          obtain ⟨add2, ht4, hscan2⟩ := h2
          exact hcombine [] s4 add2 rfl (by simpa [Mgt.log] using ht4) hscan2
        | ok v s4 =>
          rw [hl] at h2
          obtain ⟨add2, ht4, hscan2⟩ := h2
          exact hcombine [] s4 add2 rfl (by simpa [Mgt.log] using ht4) hscan2
      · have h2 := ih (if err > fail then err else fail)
          ((s1.log [Event.VJ_master JailMode.JAIL_MASTER_LOW]).log
            [Event.MGT_Complain ls.endpoint err])
        simp only [reopen_loop, ho, hz, if_false]
        cases hl : reopen_loop env rest (if err > fail then err else fail)
            ((s1.log [Event.VJ_master JailMode.JAIL_MASTER_LOW]).log
              [Event.MGT_Complain ls.endpoint err]) with
        | assert_fail => trivial
        | argv_err e s4 =>
          rw [hl] at h2
          obtain ⟨add2, ht4, hscan2⟩ := h2
          exact hcombine [Event.MGT_Complain ls.endpoint err] s4 add2 rfl
            (by simpa [Mgt.log] using ht4) hscan2
        | ok v s4 =>
          rw [hl] at h2
          obtain ⟨add2, ht4, hscan2⟩ := h2
          exact hcombine [Event.MGT_Complain ls.endpoint err] s4 add2 rfl
            (by simpa [Mgt.log] using ht4) hscan2

/-- The calls of `mac_callback` keep the bracket discipline, whenever it
returns or ends in `ARGV_ERR`. -/
theorem mac_callback_scan (env : Env) (priv : Nat) (sa : suckaddr) (s : Mgt) :
    (mac_callback env priv sa s).holds (fun s2 => ∃ added, s2.trace = s.trace ++ added
      ∧ bracket_scan Phase.low added = some Phase.low) := by
  cases hla : s.listen_args[priv]? with
  | none => simp [mac_callback, hla, Res.holds]
  | some la =>
    cases hf : s.socks.find? (fun ls => decide (VSA_Compare sa ls.addr = 0)) with
    | some old =>
      simp only [mac_callback, hla, hf, Res.holds]
      exact ⟨[], by simp, rfl⟩
    | none =>
      have hno : ∀ ls ∈ s.socks, VSA_Compare sa ls.addr ≠ 0 := by
        intro ls hls
        simpa using List.find?_eq_none.mp hf ls hls
      rw [mac_callback_eq env priv sa s la hla hno]
      have hfail : ∃ added, (callback_failed s sa).trace = s.trace ++ added
          ∧ bracket_scan Phase.low added = some Phase.low :=
        ⟨[Event.VJ_master JailMode.JAIL_MASTER_PRIVPORT, Event.VTCP_bind sa,
          Event.VJ_master JailMode.JAIL_MASTER_LOW], rfl, rfl⟩
      have hbound : ∃ added, (callback_bound env priv la sa s).trace = s.trace ++ added
          ∧ bracket_scan Phase.low added = some Phase.low :=
        ⟨[Event.VJ_master JailMode.JAIL_MASTER_PRIVPORT, Event.VTCP_bind sa,
          Event.MCH_Fd_Inherit (env.VTCP_bind s.nbind sa).sock (some "sock"),
          Event.VJ_master JailMode.JAIL_MASTER_LOW], rfl, rfl⟩
      split
      · split
        · trivial
        · split
          · exact hfail
          · exact hfail
      · exact hbound

/-- C15. In every execution of `mac_callback` and of `MAC_reopen_sockets` that
returns or ends in its `ARGV_ERR`, the calls made keep the bracket discipline:
every bind lies in a bracket of its own that `VJ_master(JAIL_MASTER_PRIVPORT)`
opens and `VJ_master(JAIL_MASTER_LOW)` closes, whether the bind succeeds or
fails, with nothing else in the bracket than the descriptor bookkeeping of
`mac_opensocket`, and no jail call stands outside a bracket; so a jail mode
that was unprivileged at the call is unprivileged at the end. -/
theorem jail_bracket_around_every_bind (env : Env) (priv : Nat) (sa : suckaddr) (s : Mgt) :
    (mac_callback env priv sa s).holds (fun s2 => ∃ added, s2.trace = s.trace ++ added
        ∧ bracket_scan Phase.low added = some Phase.low
        ∧ jail_mode JailMode.JAIL_MASTER_LOW added = JailMode.JAIL_MASTER_LOW)
    ∧ (MAC_reopen_sockets env s).holds (fun s2 => ∃ added, s2.trace = s.trace ++ added
        ∧ bracket_scan Phase.low added = some Phase.low
        ∧ jail_mode JailMode.JAIL_MASTER_LOW added = JailMode.JAIL_MASTER_LOW) := by
  refine ⟨?_, ?_⟩
  · have h := mac_callback_scan env priv sa s
    cases hc : mac_callback env priv sa s with
    | assert_fail => trivial
    | argv_err e s2 =>
      rw [hc] at h
      obtain ⟨added, ht, hscan⟩ := h
      exact ⟨added, ht, hscan, bracket_scan_mode added Phase.low Phase.low hscan⟩
    | ok r s2 =>
      rw [hc] at h
      obtain ⟨added, ht, hscan⟩ := h
      exact ⟨added, ht, hscan, bracket_scan_mode added Phase.low Phase.low hscan⟩
  · have h := reopen_loop_scan env s.socks 0 s
    unfold MAC_reopen_sockets
    cases hl : reopen_loop env s.socks 0 s with
    | assert_fail => trivial
    | argv_err e s2 =>
      rw [hl] at h
      obtain ⟨added, ht, hscan⟩ := h
      exact ⟨added, ht, hscan, bracket_scan_mode added Phase.low Phase.low hscan⟩
    | ok v s2 =>
      rw [hl] at h
      obtain ⟨added, ht, hscan⟩ := h
      exact ⟨added, ht, hscan, bracket_scan_mode added Phase.low Phase.low hscan⟩

/-! ## Labels -/

theorem digit_value_digitChar (d : Nat) (h : d < 10) : digit_value (Nat.digitChar d) = d := by
  interval_cases d <;> rfl

theorem decimal_value_concat (pre : List Char) (c : Char) :
    decimal_value (pre ++ [c]) = 10 * decimal_value pre + digit_value c := by
  simp [decimal_value, List.foldl_append]

/-- The digits `Nat.toDigitsCore` puts in front of `ds` denote `n`, and `n` is
below the power of ten of their number. -/
theorem toDigitsCore_decimal : ∀ (fuel n : Nat) (ds : List Char), n < fuel →
    ∃ pre, Nat.toDigitsCore 10 fuel n ds = pre ++ ds ∧ decimal_value pre = n
      ∧ n < 10 ^ pre.length := by
  intro fuel
  induction fuel with
  | zero => intro n ds h; omega
  | succ f ih =>
    intro n ds h
    by_cases h0 : n / 10 = 0
    · refine ⟨[Nat.digitChar (n % 10)], ?_, ?_, ?_⟩
      · simp [Nat.toDigitsCore, h0]
      · have hlt : n % 10 < 10 := Nat.mod_lt _ (by decide)
        have : decimal_value [Nat.digitChar (n % 10)] = digit_value (Nat.digitChar (n % 10)) := by
          simp [decimal_value]
        rw [this, digit_value_digitChar _ hlt]
        omega
      · simp only [List.length_singleton, pow_one]
        omega
    · have hlt : n / 10 < f := by omega
      obtain ⟨pre, hpre, hval, hbound⟩ := ih (n / 10) (Nat.digitChar (n % 10) :: ds) hlt
      refine ⟨pre ++ [Nat.digitChar (n % 10)], ?_, ?_, ?_⟩
      · simp [Nat.toDigitsCore, h0, hpre]
      · rw [decimal_value_concat, hval, digit_value_digitChar _ (Nat.mod_lt _ (by decide))]
        omega
      · rw [List.length_append, List.length_singleton, pow_succ]
        omega

theorem toString_nat_decimal (n : Nat) :
    decimal_value (toString n).data = n ∧ n < 10 ^ (toString n).length := by
  obtain ⟨pre, hpre, hval, hbound⟩ := toDigitsCore_decimal (n + 1) n [] (Nat.lt_succ_self n)
  have hdata : (toString n).data = pre := by
    show (Nat.toDigits 10 n).asString.data = pre
    simp only [Nat.toDigits, hpre, List.append_nil, List.asString]
  have hlen : (toString n).length = pre.length := by
    show (toString n).data.length = pre.length
    rw [hdata]
  rw [hdata, hlen]
  exact ⟨hval, hbound⟩

theorem toString_nat_injective (n m : Nat) (h : toString n = toString m) : n = m := by
  have hn := (toString_nat_decimal n).1
  have hm := (toString_nat_decimal m).1
  rw [h] at hn
  exact hn.symm.trans hm

theorem auto_label_injective (n m : Nat) (h : "a" ++ toString n = "a" ++ toString m) : n = m := by
  apply toString_nat_injective
  have hd := congrArg String.data h
  simp only [String.data_append, List.append_cancel_left_eq] at hd
  exact String.ext hd

/-- An auto-generated label that fits the 8-byte buffer comes from a counter
below a million, so the counter does not wrap. -/
theorem MAC_Arg_name_auto (seq : Nat) (label : String) (seq2 : Nat)
    (h : MAC_Arg_name none seq = some (label, seq2)) :
    label = "a" ++ toString seq ∧ seq2 = seq + 1 := by
  unfold MAC_Arg_name at h
  simp only at h
  split at h
  · rename_i hfit
    simp only [Option.some.injEq, Prod.mk.injEq] at h
    refine ⟨h.1.symm, ?_⟩
    have hb := (toString_nat_decimal seq).2
    have hlen : (toString seq).length < 7 := by
      simp only [String.length_append] at hfit
      have : "a".length = 1 := rfl
      omega
    have hpow : 10 ^ (toString seq).length ≤ 10 ^ 6 :=
      Nat.pow_le_pow_right (by decide) (by omega)
    have hsmall : seq + 1 < 2 ^ 32 := by
      have : (10 : Nat) ^ 6 < 2 ^ 32 - 1 := by decide
      omega
    rw [← h.2]
    exact Nat.mod_eq_of_lt hsmall
  · cases h

theorem map_name_set (l : List listen_arg) (i : Nat) (la la2 : listen_arg)
    (h : l[i]? = some la) (hn : la2.name = la.name) :
    (l.set i la2).map (fun x => x.name) = l.map (fun x => x.name) := by
  apply List.ext_getElem?
  intro j
  simp only [List.getElem?_map, List.getElem?_set]
  by_cases hij : i = j
  · subst hij
    obtain ⟨hlt, -⟩ := List.getElem?_eq_some.mp h
    simp [hlt, h, hn]
  · simp [hij]

theorem map_name_set_tail (l : List listen_arg) (la la2 : listen_arg)
    (hn : la2.name = la.name) :
    ((l ++ [la]).set l.length la2).map (fun x => x.name)
      = l.map (fun x => x.name) ++ [la.name] := by
  rw [map_name_set _ _ la _ (getElem?_append_cons_at _ _ _ _ rfl) hn]
  simp

/-- A callback changes neither the labels nor the counter. -/
theorem mac_callback_labels (env : Env) (priv : Nat) (sa : suckaddr) (s : Mgt) :
    (mac_callback env priv sa s).holds (fun s2 => s2.labels = s.labels ∧ s2.seq = s.seq) := by
  cases hla : s.listen_args[priv]? with
  | none => simp [mac_callback, hla, Res.holds]
  | some la =>
    cases hf : s.socks.find? (fun ls => decide (VSA_Compare sa ls.addr = 0)) with
    | some old =>
      simp only [mac_callback, hla, hf, Res.holds, and_self]
    | none =>
      have hno : ∀ ls ∈ s.socks, VSA_Compare sa ls.addr ≠ 0 := by
        intro ls hls
        simpa using List.find?_eq_none.mp hf ls hls
      rw [mac_callback_eq env priv sa s la hla hno]
      have hfail : (callback_failed s sa).labels = s.labels
          ∧ (callback_failed s sa).seq = s.seq := ⟨rfl, rfl⟩
      have hbound : (callback_bound env priv la sa s).labels = s.labels
          ∧ (callback_bound env priv la sa s).seq = s.seq :=
        ⟨map_name_set s.listen_args priv la _ hla rfl, rfl⟩
      split
      · split
        · trivial
        · split
          · exact hfail
          · exact hfail
      · exact hbound

/-- Every return of `MAC_Arg_setup` has added the label of the argument at the
tail of the labels and left the counter as `MAC_Arg_name` gives it. -/
theorem MAC_Arg_setup_labels (env : Env) (arg : NamedArg) (s s1 : Mgt) (priv : Nat)
    (h : MAC_Arg_setup env arg s = Res.ok priv s1) :
    ∃ label seq2, MAC_Arg_name arg.name s.seq = some (label, seq2)
      ∧ s1.labels = s.labels ++ [label] ∧ s1.seq = seq2 := by
  unfold MAC_Arg_setup at h
  cases hn : MAC_Arg_name arg.name s.seq with
  | none => simp [hn] at h
  | some v =>
    obtain ⟨label, seq2⟩ := v
    simp only [hn] at h
    split at h
    · split at h
      · cases h
      · rename_i xp _
        cases h
        exact ⟨label, seq2, rfl, map_name_set_tail _ _ _ rfl, rfl⟩
    · split at h
      · cases h
      · split at h
        · cases h
        · rename_i xp _ _
          cases h
          exact ⟨label, seq2, rfl, map_name_set_tail _ _ _ rfl, rfl⟩

/-- Every return of `MAC_Arg` has added the label of the argument at the tail
of the labels and left the counter as `MAC_Arg_name` gives it. -/
theorem MAC_Arg_labels (env : Env) (arg : NamedArg) (s s2 : Mgt)
    (h : MAC_Arg env arg s = Res.ok () s2) :
    ∃ label seq2, MAC_Arg_name arg.name s.seq = some (label, seq2)
      ∧ s2.labels = s.labels ++ [label] ∧ s2.seq = seq2 := by
  unfold MAC_Arg at h
  cases hset : MAC_Arg_setup env arg s with
  | assert_fail => simp [hset] at h
  | argv_err e s1 => simp [hset] at h
  | ok priv s1 =>
    obtain ⟨label, seq2, hname, hlab, hseq⟩ := MAC_Arg_setup_labels env arg s s1 priv hset
    simp only [hset, VSS_resolver] at h
    cases hg : env.getaddrinfo arg.endpoint "80" with
    | none =>
      simp only [hg] at h
      split at h
      · cases h
      · simp at h
    | some res =>
      have h2 := resolver_loop_holds (mac_callback env priv)
        (fun a b => b.labels = a.labels ∧ b.seq = a.seq)
        (fun _ => ⟨rfl, rfl⟩)
        (fun _ _ _ h1 h2 => ⟨h2.1.trans h1.1, h2.2.trans h1.2⟩)
        (mac_callback_labels env priv) res 0 s1
      simp only [hg] at h
      cases hl : resolver_loop (mac_callback env priv) res 0 s1 with
      | assert_fail => simp [hl] at h
      | argv_err e s3 => simp [hl] at h
      | ok error s3 =>
        rw [hl] at h2
        simp only [hl] at h
        split at h
        · cases h
        · split at h
          · cases h
          · cases h
            exact ⟨label, seq2, hname, h2.1.trans hlab, h2.2.trans hseq⟩

/-- The labels after a sequence of returning `MAC_Arg` calls. -/
theorem MAC_Args_labels (env : Env) : ∀ (args : List NamedArg) (s s2 : Mgt),
    MAC_Args env args s = Res.ok () s2 → s2.labels = s.labels ++ labels_from s.seq args := by
  intro args
  induction args with
  | nil =>
    intro s s2 h
    simp only [MAC_Args, Res.ok.injEq, true_and] at h
    subst h
    simp [labels_from]
  | cons arg rest ih =>
    intro s s2 h
    simp only [MAC_Args] at h
    cases hc : MAC_Arg env arg s with
    | assert_fail => simp [hc] at h
    | argv_err e s1 => simp [hc] at h
    | ok u s1 =>
      simp only [hc] at h
      obtain ⟨label, seq2, hname, hlab, hseq⟩ := MAC_Arg_labels env arg s s1 hc
      have hrest := ih s1 s2 h
      rw [hrest, hlab, hseq]
      cases hn : arg.name with
      | some n =>
        simp only [hn, MAC_Arg_name, Option.some.injEq, Prod.mk.injEq] at hname
        simp [labels_from, hn, hname.1, hname.2]
      | none =>
        rw [hn] at hname
        obtain ⟨h1, h2⟩ := MAC_Arg_name_auto s.seq label seq2 hname
        simp [labels_from, hn, h1, h2]

theorem mem_labels_from : ∀ (args : List NamedArg) (k : Nat) (x : String),
    x ∈ labels_from k args →
    x ∈ given_names args
      ∨ ∃ i, k ≤ i ∧ i < k + unnamed_count args ∧ x = "a" ++ toString i := by
  intro args
  induction args with
  | nil => intro k x h; simp [labels_from] at h
  | cons arg rest ih =>
    intro k x h
    cases hn : arg.name with
    | some n =>
      simp only [labels_from, hn, List.mem_cons] at h
      rcases h with h | h
      · left
        simp [given_names, hn, h]
      · rcases ih k x h with h1 | ⟨i, h1, h2, h3⟩
        · left
          simp only [given_names, List.filterMap_cons, hn, List.mem_cons]
          exact Or.inr h1
        · right
          refine ⟨i, h1, ?_, h3⟩
          simpa [unnamed_count, List.filter_cons, hn] using h2
    | none =>
      simp only [labels_from, hn, List.mem_cons] at h
      have hcount : unnamed_count (arg :: rest) = unnamed_count rest + 1 := by
        simp [unnamed_count, List.filter_cons, hn]
      rcases h with h | h
      · right
        exact ⟨k, le_refl k, by omega, h⟩
      · rcases ih (k + 1) x h with h1 | ⟨i, h1, h2, h3⟩
        · left
          simpa [given_names, List.filterMap_cons, hn] using h1
        · right
          exact ⟨i, by omega, by omega, h3⟩

/-- The labels are pairwise distinct when the operator's names are and none of
them is an auto-generated label in use. -/
theorem labels_from_nodup : ∀ (args : List NamedArg) (k : Nat),
    (given_names args).Nodup →
    (∀ g ∈ given_names args, ∀ i, k ≤ i → i < k + unnamed_count args →
      g ≠ "a" ++ toString i) →
    (labels_from k args).Nodup := by
  intro args
  induction args with
  | nil => intro k _ _; simp [labels_from]
  | cons arg rest ih =>
    intro k hnd hdis
    cases hn : arg.name with
    | some n =>
      have hgiven : given_names (arg :: rest) = n :: given_names rest := by
        simp [given_names, List.filterMap_cons, hn]
      have hcount : unnamed_count (arg :: rest) = unnamed_count rest := by
        simp [unnamed_count, List.filter_cons, hn]
      rw [hgiven] at hnd hdis
      rw [hcount] at hdis
      obtain ⟨hnot, hnd2⟩ := List.nodup_cons.mp hnd
      simp only [labels_from, hn]
      apply List.nodup_cons.mpr
      refine ⟨?_, ih k hnd2 (fun g hg => hdis g (List.mem_cons_of_mem _ hg))⟩
      intro hmem
      rcases mem_labels_from rest k n hmem with h1 | ⟨i, h1, h2, h3⟩
      · exact hnot h1
      · exact hdis n (List.mem_cons_self _ _) i h1 h2 h3
    | none =>
      have hgiven : given_names (arg :: rest) = given_names rest := by
        simp [given_names, List.filterMap_cons, hn]
      have hcount : unnamed_count (arg :: rest) = unnamed_count rest + 1 := by
        simp [unnamed_count, List.filter_cons, hn]
      rw [hgiven] at hnd hdis
      rw [hcount] at hdis
      simp only [labels_from, hn]
      apply List.nodup_cons.mpr
      refine ⟨?_, ih (k + 1) hnd (fun g hg i h1 h2 => hdis g hg i (by omega) (by omega))⟩
      intro hmem
      rcases mem_labels_from rest (k + 1) _ hmem with h1 | ⟨i, h1, h2, h3⟩
      · exact hdis _ h1 k (le_refl k) (by omega) rfl
      · have := auto_label_injective k i h3
        omega

/-- C12 as stated fails: an operator's name `a0` and the label of the first
unnamed argument are equal, and so are two equal names given by the operator;
in both runs every `MAC_Arg` call returns. -/
theorem MAC_Args_labels_collide :
    (∃ s, MAC_Args sampleEnv [namedLikeAuto, anyPort] Mgt.init = Res.ok () s
      ∧ s.labels = ["a0", "a0"] ∧ ¬ s.labels.Nodup)
    ∧ (∃ s, MAC_Args sampleEnv [webPort8080, webAnyPort] Mgt.init = Res.ok () s
      ∧ s.labels = ["web", "web"] ∧ ¬ s.labels.Nodup) :=
  ⟨⟨_, rfl, by decide, by decide⟩, ⟨_, rfl, by decide, by decide⟩⟩

/-- C12, amended. After every sequence of returning `MAC_Arg` calls from the
initial state, the labels of the listen arguments are, in order, the
operator's name for a named argument and `a0`, `a1`, ... for the unnamed
ones, in order of appearance among the unnamed; the auto-generated labels
are pairwise distinct; and all labels are pairwise distinct provided the
operator's names are pairwise distinct and none of them is one of the
auto-generated labels in use (`MAC_Arg` compares no labels). -/
theorem MAC_Args_labels_nodup (env : Env) (args : List NamedArg) (s : Mgt)
    (h : MAC_Args env args Mgt.init = Res.ok () s) :
    s.labels = labels_from 0 args
      ∧ ((List.range (unnamed_count args)).map (fun i => "a" ++ toString i)).Nodup
      ∧ ((given_names args).Nodup →
          (∀ g ∈ given_names args, ∀ i, i < unnamed_count args → g ≠ "a" ++ toString i) →
          s.labels.Nodup) := by
  have hlab : s.labels = labels_from 0 args := by
    have := MAC_Args_labels env args Mgt.init s h
    simpa [Mgt.labels, Mgt.init] using this
  refine ⟨hlab, ?_, ?_⟩
  · exact List.Nodup.map (fun a b hab => auto_label_injective a b hab) (List.nodup_range _)
  · intro hnd hdis
    rw [hlab]
    exact labels_from_nodup args 0 hnd (fun g hg i _ hi => hdis g hg i (by omega))

/-- C12, amended, at a sample run: `-a web=:8080`, `-a :0`, `-a :0`. -/
theorem MAC_Args_labels_nodup_witness :
    ∃ s, MAC_Args sampleEnv [webPort8080, anyPort, anyPort] Mgt.init = Res.ok () s
      ∧ s.labels = ["web", "a0", "a1"] ∧ s.labels.Nodup :=
  ⟨_, rfl,
    (MAC_Args_labels_nodup sampleEnv [webPort8080, anyPort, anyPort] _ rfl).1.trans
      (by decide),
    (MAC_Args_labels_nodup sampleEnv [webPort8080, anyPort, anyPort] _ rfl).2.2
      (by decide) (by decide)⟩

end Varnish
